import Mathlib

/-!
# Verification of the pupman ID-mapping reconciliation engine

Shallow embedding of the core of the `pupman` repository (a Proxmox LXC
sub-ID audit tool) together with proofs about the natural-language
specification's claims.

The embedding covers:
* the container-config parser and its derived index
  (`src/lxc/config.rs`, `src/lxc/section.rs`, `src/lxc/section_mut.rs`);
* the `/etc/subuid` / `/etc/subgid` parser
  (`parse_subid_map` and `App::load_subid` in `src/app/mod.rs`);
* the findings evaluator (`State::evaluate_findings` in
  `src/app/state/mod.rs`).

Rust string slices are modelled as `List Char` (named `Str` below) so that
every definition is kernel-computable; `str` converts a Lean string literal.
Machine integers (`u32`) are modelled as `Nat` with explicit wrap-around
(`% 2^32`) exactly where the Rust code performs `u32` addition.  External
effects (the `id -u`/`id -g` identity resolver and the rootfs metadata
lookup) are passed in as function parameters; resolver invocations are
additionally recorded in an explicit call log so that memoization claims
can be stated.  Rust's `str::trim` trims Unicode whitespace while the model
trims via `Char.isWhitespace` (ASCII); the two agree on all inputs appearing
in this development.
-/

namespace Pupman

/-- Rust `&str`, modelled as a list of characters. -/
abbrev Str : Type := List Char

/-- Embed a Lean string literal into the model. -/
def str (s : String) : Str := s.toList

/-- `u32` addition with wrap-around, as performed by unchecked release-mode
Rust arithmetic on `u32` operands. -/
def u32add (a b : Nat) : Nat := (a + b) % 4294967296

/-- Model of Rust's `str::trim` (drop whitespace from both ends). -/
def trimStr (l : Str) : Str :=
  ((l.dropWhile Char.isWhitespace).reverse.dropWhile Char.isWhitespace).reverse

/-- Model of Rust's `str::parse::<u32>`: an optional leading `+`, then one or
more ASCII digits, and the value must fit in a `u32`. -/
def parseU32 (s : Str) : Option Nat :=
  let t := match s with
    | '+' :: rest => rest
    | _ => s
  if t = [] then none
  else if t.all Char.isDigit then
    let n := t.foldl (fun acc c => acc * 10 + (c.toNat - 48)) 0
    if n < 4294967296 then some n else none
  else none

/-- Model of Rust's `str::split(c)`: split at every occurrence of the
character, keeping empty chunks (always at least one chunk). -/
def splitOnChar (c : Char) : Str → List Str
  | [] => [[]]
  | x :: xs =>
    let r := splitOnChar c xs
    if x = c then [] :: r
    else
      match r with
      | [] => [[x]]
      | hd :: tl => (x :: hd) :: tl

/-- Model of Rust's `str::split_once(c)`: split at the first occurrence of
the character; `none` when the character does not occur. -/
def splitOnceChar (sep : Char) : Str → Option (Str × Str)
  | [] => none
  | x :: xs =>
    if x = sep then some ([], xs)
    else (splitOnceChar sep xs).map fun p => (x :: p.1, p.2)

/-- Model of Rust's `str::lines`: split on `'\n'`, drop a final empty piece
(the final line ending is optional), and strip one trailing `'\r'` from each
line. -/
def rustLines (s : Str) : List Str :=
  let parts := splitOnChar '\n' s
  let parts := if parts.getLast? = some [] then parts.dropLast else parts
  parts.map fun l => if l.getLast? = some '\r' then l.dropLast else l

/-- First value bound to a key in an association list (the lookup semantics
of Rust's `HashMap`; keys stored in the list are distinct). -/
def lookupAssoc {α : Type} (l : List (Str × α)) (k : Str) : Option α :=
  match l with
  | [] => none
  | (k', v) :: rest => if k' = k then some v else lookupAssoc rest k

/-! ## Container config model (`src/lxc/config.rs`) -/

/-- One parsed line of an LXC container config (`ConfEntry` in
`src/lxc/config.rs`). -/
inductive ConfEntry : Type
  | Section (name : Str)
  | KeyValue (key value : Str)
  | Comment (text : Str)
  | EmptyLine
  deriving DecidableEq, Repr

/-- The derived `(section, key) -> values` index of a `Config`, modelled as an
association list (the hash map only ever sees lookup, entry-or-default-push
and remove, so an association list with distinct keys is a faithful model). -/
abbrev Index : Type := List ((Option Str × Str) × List Str)

/-- `index.entry(k).or_default().push(v)`. -/
def indexPush (idx : Index) (k : Option Str × Str) (v : Str) : Index :=
  match idx with
  | [] => [(k, [v])]
  | (k', vs) :: rest =>
    if k' = k then (k', vs ++ [v]) :: rest else (k', vs) :: indexPush rest k v

/-- `index.get(&k)`. -/
def indexGet (idx : Index) (k : Option Str × Str) : Option (List Str) :=
  match idx with
  | [] => none
  | (k', vs) :: rest => if k' = k then some vs else indexGet rest k

/-- `index.remove(&k)`. -/
def indexRemove (idx : Index) (k : Option Str × Str) : Index :=
  idx.filter fun p => p.1 ≠ k

/-- `Config` (`src/lxc/config.rs`): the ordered entry list plus the derived
index. -/
structure Config : Type where
  entries : List ConfEntry
  index : Index
  deriving DecidableEq, Repr

/-- Classification of one line of config text, exactly as in the body of
`Config::from_str`: blank lines, `#`/`;` comments, `[section]` headers,
then split on the first `:` or, failing that, the first `=`; a line with
neither delimiter becomes a key with an empty value. -/
def parseLine (line : Str) : ConfEntry :=
  let trimmed := trimStr line
  if trimmed = [] then .EmptyLine
  else if trimmed.head? = some '#' ∨ trimmed.head? = some ';' then .Comment trimmed
  else if trimmed.head? = some '[' ∧ trimmed.getLast? = some ']' then
    .Section (trimmed.drop 1).dropLast
  else
    match (splitOnceChar ':' trimmed).orElse fun _ => splitOnceChar '=' trimmed with
    | some (k, v) => .KeyValue (trimStr k) (trimStr v)
    | none => .KeyValue trimmed []

/-- The loop body of `Config::from_str`: fold state is
(entries so far, index so far, current section). -/
def fromStrStep (acc : List ConfEntry × Index × Option Str) (line : Str) :
    List ConfEntry × Index × Option Str :=
  let (entries, idx, cs) := acc
  match parseLine line with
  | .Section name => (entries ++ [.Section name], idx, some name)
  | .KeyValue k v => (entries ++ [.KeyValue k v], indexPush idx (cs, k) v, cs)
  | e => (entries ++ [e], idx, cs)

/-- `Config::from_str` (it never fails: every line is retained as some
entry). -/
def Config.fromStr (content : Str) : Config :=
  let acc := (rustLines content).foldl fromStrStep ([], [], none)
  { entries := acc.1, index := acc.2.1 }

/-- How `impl Display for Config` renders one entry. -/
def renderEntry : ConfEntry → Str
  | .Section s => '[' :: s ++ [']']
  | .KeyValue k v => k ++ ':' :: ' ' :: v
  | .Comment c => c
  | .EmptyLine => []

/-- `impl Display for Config`: entries joined by `'\n'` (a newline is written
before every entry except the first). -/
def Config.display (c : Config) : Str :=
  List.intercalate ['\n'] (c.entries.map renderEntry)

/-- `SectionView::get`: first value for `(section, key)` in the index. -/
def Config.sectionGet (c : Config) (sect : Option Str) (key : Str) :
    Option Str :=
  (indexGet c.index (sect, key)).bind List.head?

/-- `SectionView::get_all`: all values for `(section, key)` in the index
(an absent key yields the empty iterator). -/
def Config.sectionGetAll (c : Config) (sect : Option Str) (key : Str) :
    List Str :=
  (indexGet c.index (sect, key)).getD []

/-- `SectionViewMut::find_append_point`: index one past the last `KeyValue`
entry lying in the target section, or the length of the entry list when the
target section holds no `KeyValue` entry. -/
def findAppendPoint (c : Config) (sect : Option Str) : Nat :=
  let step := fun (acc : Bool × Option Nat × Nat) (e : ConfEntry) =>
    let (inSection, lastMatch, i) := acc
    match e with
    | .Section sec => (sect = some sec, lastMatch, i + 1)
    | .KeyValue _ _ => (inSection, if inSection then some i else lastMatch, i + 1)
    | _ => (inSection, lastMatch, i + 1)
  match (c.entries.foldl step (sect.isNone, none, 0)).2.1 with
  | some i => i + 1
  | none => c.entries.length

/-- `SectionViewMut::append`. -/
def Config.appendKV (c : Config) (sect : Option Str) (key value : Str) :
    Config :=
  { entries := c.entries.insertIdx (findAppendPoint c sect) (.KeyValue key value),
    index := indexPush c.index (sect, key) value }

/-- The `retain` closure of `SectionViewMut::remove_all`, with its running
`in_section` flag made explicit. -/
def removeEntries (sect : Option Str) (key : Str) :
    Bool → List ConfEntry → List ConfEntry
  | _, [] => []
  | _, .Section sec :: rest =>
    .Section sec :: removeEntries sect key (sect = some sec) rest
  | inSection, .KeyValue k v :: rest =>
    if inSection ∧ k = key then removeEntries sect key inSection rest
    else .KeyValue k v :: removeEntries sect key inSection rest
  | inSection, e :: rest => e :: removeEntries sect key inSection rest

/-- `SectionViewMut::remove_all`. -/
def Config.removeAll (c : Config) (sect : Option Str) (key : Str) :
    Config :=
  { entries := removeEntries sect key sect.isNone c.entries,
    index := indexRemove c.index (sect, key) }

/-- `SectionViewMut::set`: `remove_all` followed by `append`. -/
def Config.setKV (c : Config) (sect : Option Str) (key value : Str) :
    Config :=
  (c.removeAll sect key).appendKV sect key value

/-- Spec-side notion of the values belonging to `(section, key)` inside the
raw entry list: walk the entries tracking the current section (initially the
top-level `none` section) and collect, in order, the values of the `KeyValue`
entries with the given key that lie in the region governed by the given
section. -/
def sectionValues (target : Option Str) (key : Str) :
    Option Str → List ConfEntry → List Str
  | _, [] => []
  | _, .Section sec :: rest => sectionValues target key (some sec) rest
  | cur, .KeyValue k v :: rest =>
    (if cur = target ∧ k = key then [v] else []) ++ sectionValues target key cur rest
  | cur, _ :: rest => sectionValues target key cur rest

/-! ## Host sub-ID mappings (`src/fs/subid.rs`, `src/app/mod.rs`) -/

/-- `SubID` (`src/fs/subid.rs`): whether an identifier is a user or group
sub-ID. -/
inductive SubID : Type
  | UID
  | GID
  deriving DecidableEq, Repr

/-- `IdMapEntry` (`src/app/ui/mod.rs`): one parsed line of `/etc/subuid` or
`/etc/subgid`. -/
structure IdMapEntry : Type where
  host_user_id : Str
  host_sub_id : Nat
  host_sub_id_count : Nat
  deriving DecidableEq, Repr

/-- `HostMapping` (`src/app/ui/mod.rs`). -/
structure HostMapping : Type where
  subuid : List IdMapEntry
  subgid : List IdMapEntry
  deriving DecidableEq, Repr

/-- One non-blank, trimmed line of `/etc/subuid`/`/etc/subgid`, as parsed by
the loop body of `parse_subid_map` (`src/app/mod.rs`): split on `:`; the
first chunk is the name, the second and third must parse as `u32`; extra
chunks are ignored; a missing or unparsable numeric chunk fails the whole
parse. -/
def parseSubidLine (trimmed : Str) : Option IdMapEntry :=
  match splitOnChar ':' trimmed with
  | name :: sub :: cnt :: _ =>
    match parseU32 sub, parseU32 cnt with
    | some s, some c => some ⟨name, s, c⟩
    | _, _ => none
  | _ => none

/-- The loop body of `parse_subid_map`: skip lines that are blank after
trimming; a malformed line fails the whole parse (modelled by the `none`
accumulator, which absorbs the rest of the fold like the early `?`
return). -/
def subidStep (acc : Option (List IdMapEntry)) (line : Str) :
    Option (List IdMapEntry) :=
  match acc with
  | none => none
  | some entries =>
    let trimmed := trimStr line
    if trimmed = [] then some entries
    else
      match parseSubidLine trimmed with
      | some e => some (entries ++ [e])
      | none => none

/-- `parse_subid_map` (`src/app/mod.rs`). -/
def parseSubidMap (content : Str) : Option (List IdMapEntry) :=
  (rustLines content).foldl subidStep (some [])

/-- `App::load_subid` (`src/app/mod.rs`): parse the file content and, only on
success, replace the corresponding list of the host mapping wholesale.  A
`none` result models the early `?` return, which leaves the caller's
`HostMapping` untouched (stale data retained). -/
def loadSubid (hm : HostMapping) (content : Str) (kind : SubID) :
    Option HostMapping :=
  (parseSubidMap content).map fun entries =>
    match kind with
    | .UID => { hm with subuid := entries }
    | .GID => { hm with subgid := entries }

/-! ## Findings evaluator (`src/app/state/mod.rs`) -/

/-- `FindingKind` (`src/app/ui/mod.rs`). -/
inductive FindingKind : Type
  | Good
  | Bad
  deriving DecidableEq, Repr

/-- `Finding` as constructed by `State::evaluate_findings`
(`src/app/state/mod.rs`): kind, static message, host-mapping highlight
positions, per-config highlights, rootfs highlights (never populated by the
evaluator). -/
structure Finding : Type where
  kind : FindingKind
  message : Str
  host_mapping_highlights : List Nat
  lxc_config_mapping_highlights : List (Str × SubID)
  rootfs_highlights : List Str
  deriving DecidableEq, Repr

/-- `Metadata` (`src/metadata.rs`), restricted to the field the evaluator
reads. -/
structure Metadata : Type where
  is_pve : Bool
  deriving DecidableEq, Repr

/-- The slice of `State` (`src/app/state/mod.rs`) that
`State::evaluate_findings` reads: the host mapping and the ordered map of
container configs (an `IndexMap`, modelled as an insertion-ordered
association list with distinct keys). -/
structure EvalState : Type where
  host_mapping : HostMapping
  lxc_configs : List (Str × Config)
  deriving DecidableEq, Repr

/-- The identity resolver contract (`username_to_id` / `groupname_to_id` in
`src/linux/mod.rs`): resolve a name to a numeric ID, or fail (`none`).  The
resolver is assumed stable within one evaluation pass. -/
abbrev Resolver : Type := SubID → Str → Option Nat

/-- The rootfs metadata lookup: the composition of `rootfs_value_to_path`
and `fs::metadata` applied to a config's `rootfs` value, yielding the owning
`(uid, gid)` on success; `none` models either failure, which is logged and
skipped. -/
abbrev RootfsMeta : Type := Str → Option (Nat × Nat)

/-- The duplicate-entry finding pushed by the host-mapping scan, with the
message and the two highlight positions (first occurrence, current). -/
def mkDupFinding (message : Str) (j i : Nat) : Finding :=
  { kind := .Bad, message := message, host_mapping_highlights := [j, i],
    lxc_config_mapping_highlights := [], rootfs_highlights := [] }

/-- The duplicate scan of `State::evaluate_findings` over one host-mapping
list: `i` is the absolute highlight position of the current entry (for the
`subgid` list positions are offset by the length of the `subuid` list), and
`seen` maps each name already visited to its first position.  A repeated
name emits one finding per repeated occurrence (only when `is_pve`),
highlighting the first occurrence and the current one. -/
def dupScan (isPve : Bool) (message : Str) :
    List IdMapEntry → Nat → List (Str × Nat) → List Finding
  | [], _, _ => []
  | m :: rest, i, seen =>
    match lookupAssoc seen m.host_user_id with
    | some j =>
      (if isPve then [mkDupFinding message j i] else [])
        ++ dupScan isPve message rest (i + 1) seen
    | none => dupScan isPve message rest (i + 1) (seen ++ [(m.host_user_id, i)])

/-- Message of the duplicate-user finding. -/
def dupUserMsg : Str := str "Cannot have multiple entries for the same user"

/-- Message of the duplicate-group finding. -/
def dupGroupMsg : Str := str "Cannot have multiple entries for the same group"

/-- The shared message stem tested by `starts_with` before pushing the
`Good` no-duplicates finding. -/
def dupMsgStem : Str := str "Cannot have multiple entries for the same"

/-- The `Good` no-duplicates finding. -/
def goodNoDupFinding : Finding :=
  { kind := .Good, message := str "No duplicate ids found in subuid/subgid mappings",
    host_mapping_highlights := [], lxc_config_mapping_highlights := [],
    rootfs_highlights := [] }

/-- Phase 1 of `State::evaluate_findings`: duplicate findings for `subuid`
then `subgid` (the latter with positions offset by the `subuid` length),
then, when `is_pve` holds and no duplicate finding was pushed, the single
`Good` finding. -/
def dupPhase (meta : Metadata) (hm : HostMapping) : List Finding :=
  let findings :=
    dupScan meta.is_pve dupUserMsg hm.subuid 0 []
      ++ dupScan meta.is_pve dupGroupMsg hm.subgid hm.subuid.length []
  if meta.is_pve ∧ ¬ findings.any (fun f => dupMsgStem.isPrefixOf f.message)
  then findings ++ [goodNoDupFinding]
  else findings

/-- The range-violation test of `State::evaluate_findings`, written exactly
as in the source: the sums are `u32` additions (wrap-around). -/
def rangeViolation (m : IdMapEntry) (hostSubId size : Nat) : Bool :=
  decide (hostSubId < m.host_sub_id)
    || decide (hostSubId > u32add m.host_sub_id m.host_sub_id_count)
    || decide (u32add hostSubId size > u32add m.host_sub_id m.host_sub_id_count)

/-- Message of the out-of-range finding for the given kind. -/
def rangeMsg : SubID → Str
  | .UID => str "LXC config's host sub uid range outside of host mapping range"
  | .GID => str "LXC config's host sub gid range outside of host mapping range"

/-- The out-of-range finding pushed for a matching host-mapping entry. -/
def mkRangeFinding (kind : SubID) (filename : Str) (subidPos : Nat) : Finding :=
  { kind := .Bad, message := rangeMsg kind,
    host_mapping_highlights := [subidPos],
    lxc_config_mapping_highlights := [(filename, kind)],
    rootfs_highlights := [] }

/-- The per-pair emission of the range check: the finding pushed for one
(idmap line, host-mapping entry) pair whose resolved ID matched, or `none`
when the pair passes the check. -/
def rangeFinding (kind : SubID) (filename : Str) (subidPos : Nat)
    (m : IdMapEntry) (hostSubId size : Nat) : Option Finding :=
  if rangeViolation m hostSubId size then some (mkRangeFinding kind filename subidPos)
  else none

/-- Message of the rootfs-ownership mismatch finding. -/
def rootfsMsg : SubID → Str
  | .UID => str "Rootfs uid does not match host mapping"
  | .GID => str "Rootfs gid does not match host mapping"

/-- The rootfs-ownership mismatch finding. -/
def mkRootfsFinding (kind : SubID) (filename : Str) : Finding :=
  { kind := .Bad, message := rootfsMsg kind,
    host_mapping_highlights := [],
    lxc_config_mapping_highlights := [(filename, kind)],
    rootfs_highlights := [] }

/-- Message of the missing-idmap finding. -/
def missingMsg : SubID → Str
  | .UID => str "lxc.idmap for uid is not set in config"
  | .GID => str "lxc.idmap for gid is not set in config"

/-- The missing-idmap finding pushed when a container has no idmap line of
the given kind. -/
def missingFinding (kind : SubID) (filename : Str) : Finding :=
  { kind := .Bad, message := missingMsg kind,
    host_mapping_highlights := [],
    lxc_config_mapping_highlights := [(filename, kind)],
    rootfs_highlights := [] }

/-- The inner `for (k, mapping) in mappings.iter().enumerate()` loop of
`State::evaluate_findings` for one idmap line: resolve each host-mapping
entry's name (via the per-pass memo table; a fresh resolution is recorded in
the call log, and a failed resolution skips the entry without being
memoized), keep entries whose resolved ID equals the line's container-ID
field, and run the range check on those.  Returns the updated memo table,
the appended call log and the findings emitted, in push order. -/
def processMappings (res : Resolver) (kind : SubID) (filename : Str)
    (offset parsedHostId parsedHostSubId parsedSize : Nat) :
    List IdMapEntry → Nat → List (Str × Nat) → List (SubID × Str) →
    List (Str × Nat) × List (SubID × Str) × List Finding
  | [], _, memo, calls => (memo, calls, [])
  | m :: rest, k, memo, calls =>
    let subidPos := k + offset
    let next := fun (memo' : List (Str × Nat)) (calls' : List (SubID × Str))
        (id : Nat) =>
      let emitted :=
        if id ≠ parsedHostId then []
        else (rangeFinding kind filename subidPos m parsedHostSubId parsedSize).toList
      let pm :=
        processMappings res kind filename offset parsedHostId parsedHostSubId
          parsedSize rest (k + 1) memo' calls'
      (pm.1, pm.2.1, emitted ++ pm.2.2)
    match lookupAssoc memo m.host_user_id with
    | some id => next memo calls id
    | none =>
      let calls' := calls ++ [(kind, m.host_user_id)]
      match res kind m.host_user_id with
      | none =>
        processMappings res kind filename offset parsedHostId parsedHostSubId
          parsedSize rest (k + 1) memo calls'
      | some id => next (memo ++ [(m.host_user_id, id)]) calls' id

/-- The per-pass resolver state: the two memo tables and the call log. -/
structure Resolutions : Type where
  memoU : List (Str × Nat)
  memoG : List (Str × Nat)
  calls : List (SubID × Str)
  deriving DecidableEq, Repr

/-- The initial (empty) resolver state of one evaluation pass. -/
def Resolutions.empty : Resolutions := ⟨[], [], []⟩

/-- The kind-dispatched core of one idmap-line iteration: select the
mapping list, highlight offset and memo table for the kind, run the
host-mapping loop, and fold the updated memo table and call log back into
the resolver state.  Returns the updated state and the emitted range
findings. -/
def lineCore (res : Resolver) (hm : HostMapping) (filename : Str)
    (kind : SubID) (parsedHostId parsedHostSubId parsedSize : Nat)
    (r : Resolutions) : Resolutions × List Finding :=
  let mappings := match kind with
    | .UID => hm.subuid
    | .GID => hm.subgid
  let offset := match kind with
    | .UID => 0
    | .GID => hm.subuid.length
  let memo := match kind with
    | .UID => r.memoU
    | .GID => r.memoG
  let pm :=
    processMappings res kind filename offset parsedHostId parsedHostSubId
      parsedSize mappings 0 memo r.calls
  (match kind with
   | .UID => { r with memoU := pm.1, calls := pm.2.1 }
   | .GID => { r with memoG := pm.1, calls := pm.2.1 },
   pm.2.2)

/-- Field extraction of one `lxc.idmap` value: trim, split on spaces, and
parse the three numeric fields as `u32`; `none` when a field is missing or
unparsable (the `unreachable!`/`unwrap` panics of the source). -/
def idmapFields (v : Str) : Option (Str × Nat × Nat × Nat) :=
  match splitOnChar ' ' (trimStr v) with
  | kindStr :: hostId :: hostSubId :: hostSubIdSize :: _ =>
    match parseU32 hostId, parseU32 hostSubId, parseU32 hostSubIdSize with
    | some parsedHostId, some parsedHostSubId, some parsedSize =>
      some (kindStr, parsedHostId, parsedHostSubId, parsedSize)
    | _, _, _ => none
  | _ => none

/-- Processing of one `lxc.idmap` value inside `State::evaluate_findings`:
take the kind and the three numeric fields (a malformed line is an
`unreachable!` or `unwrap` panic, modelled as `none`), mark the kind as
seen, push the rootfs-ownership finding when rootfs metadata is available
and mismatching, then run the host-mapping loop for the kind's list.
Returns the updated seen-flags, resolver state and emitted findings. -/
def processIdmapLine (res : Resolver) (hm : HostMapping) (filename : Str)
    (rootfsMeta : Option (Nat × Nat)) (value : Str)
    (hasU hasG : Bool) (r : Resolutions) :
    Option ((Bool × Bool) × Resolutions × List Finding) :=
  match idmapFields value with
  | some (kindStr, parsedHostId, parsedHostSubId, parsedSize) =>
    if kindStr = str "u" ∨ kindStr = str "g" then
      let kind : SubID := if kindStr = str "u" then .UID else .GID
      let hasU' := hasU || kindStr = str "u"
      let hasG' := hasG || kindStr = str "g"
      let rootfsFindings :=
        match rootfsMeta with
        | none => []
        | some (uid, gid) =>
          (if kindStr = str "u" ∧ uid ≠ parsedHostSubId
           then [mkRootfsFinding .UID filename] else [])
            ++ (if kindStr = str "g" ∧ gid ≠ parsedHostSubId
                then [mkRootfsFinding .GID filename] else [])
      let core := lineCore res hm filename kind parsedHostId parsedHostSubId
        parsedSize r
      some ((hasU', hasG'), core.1, rootfsFindings ++ core.2)
    else none
  | none => none

/-- Folding `processIdmapLine` over all `lxc.idmap` values of one container
config, accumulating emitted findings in push order. -/
def processIdmapLines (res : Resolver) (hm : HostMapping) (filename : Str)
    (rootfsMeta : Option (Nat × Nat)) :
    List Str → Bool → Bool → Resolutions →
    Option ((Bool × Bool) × Resolutions × List Finding)
  | [], hasU, hasG, r => some ((hasU, hasG), r, [])
  | v :: rest, hasU, hasG, r =>
    match processIdmapLine res hm filename rootfsMeta v hasU hasG r with
    | none => none
    | some ((hasU', hasG'), r', fs) =>
      match processIdmapLines res hm filename rootfsMeta rest hasU' hasG' r' with
      | none => none
      | some (flags, r'', fs') => some (flags, r'', fs ++ fs')

/-- The per-container body of `State::evaluate_findings`: skip configs whose
top-level `unprivileged` value is not `"1"`; otherwise look up the rootfs
metadata, process every top-level `lxc.idmap` value, and append the
missing-idmap findings for the kinds never seen. -/
def processConfig (res : Resolver) (rfs : RootfsMeta) (hm : HostMapping)
    (filename : Str) (config : Config) (r : Resolutions) :
    Option (Resolutions × List Finding) :=
  if config.sectionGet none (str "unprivileged") ≠ some (str "1") then
    some (r, [])
  else
    let rootfsMeta := (config.sectionGet none (str "rootfs")).bind rfs
    match processIdmapLines res hm filename rootfsMeta
        (config.sectionGetAll none (str "lxc.idmap")) false false r with
    | none => none
    | some ((hasU, hasG), r', fs) =>
      some (r', fs
        ++ (if hasU then [] else [missingFinding .UID filename])
        ++ (if hasG then [] else [missingFinding .GID filename]))

/-- Folding `processConfig` over all container configs in map order. -/
def processConfigs (res : Resolver) (rfs : RootfsMeta) (hm : HostMapping) :
    List (Str × Config) → Resolutions → Option (Resolutions × List Finding)
  | [], r => some (r, [])
  | (filename, config) :: rest, r =>
    match processConfig res rfs hm filename config r with
    | none => none
    | some (r', fs) =>
      match processConfigs res rfs hm rest r' with
      | none => none
      | some (r'', fs') => some (r'', fs ++ fs')

/-- `State::evaluate_findings` up to (but not including) the final sort:
the findings in emission order, paired with the resolver call log.  `none`
models a panic on a malformed idmap line. -/
def evaluateRaw (meta : Metadata) (res : Resolver) (rfs : RootfsMeta)
    (st : EvalState) : Option (List Finding × List (SubID × Str)) :=
  match processConfigs res rfs st.host_mapping st.lxc_configs
      Resolutions.empty with
  | none => none
  | some (r, fs) => some (dupPhase meta st.host_mapping ++ fs, r.calls)

/-- Whether a finding is `Bad`. -/
def isBad (f : Finding) : Bool := f.kind = FindingKind.Bad

/-- The final `sort_by_key(|f| f.kind != FindingKind::Bad)`: a stable sort
on a two-valued key, which is exactly the stable partition putting the
`Bad` findings (key `false`) first. -/
def sortFindings (fs : List Finding) : List Finding :=
  fs.filter isBad ++ fs.filter fun f => !(isBad f)

/-- `State::evaluate_findings` (`src/app/state/mod.rs`): the final findings
list, or `none` when the pass panics on a malformed idmap line. -/
def evaluate (meta : Metadata) (res : Resolver) (rfs : RootfsMeta)
    (st : EvalState) : Option (List Finding) :=
  (evaluateRaw meta res rfs st).map fun p => sortFindings p.1

/-! ## Spec-side definitions

Definitions in this section transcribe conditions from the specification's
words (not from the source); they exist to be compared against the
source-derived definitions above. -/

/-- Modelled from the spec's words (§4.5 step 2b): the idmap's declared
`host_sub_id` must lie within the half-open interval
`[entry.host_sub_id, entry.host_sub_id + entry.host_sub_id_count)` and the
idmap's declared end `host_sub_id + host_sub_id_count` must not exceed the
entry's end — in exact integer arithmetic.  `true` means the bounds are
violated and a `Bad` finding is required. -/
def specRangeViolation (m : IdMapEntry) (hostSubId size : Nat) : Bool :=
  decide (hostSubId < m.host_sub_id)
    || decide (hostSubId ≥ m.host_sub_id + m.host_sub_id_count)
    || decide (hostSubId + size > m.host_sub_id + m.host_sub_id_count)

/-- The comparison performed by the source's range check, read in exact
(unbounded) integer arithmetic instead of wrap-around `u32` arithmetic. -/
def exactRangeViolation (m : IdMapEntry) (hostSubId size : Nat) : Bool :=
  decide (hostSubId < m.host_sub_id)
    || decide (hostSubId > m.host_sub_id + m.host_sub_id_count)
    || decide (hostSubId + size > m.host_sub_id + m.host_sub_id_count)

/-- Well-formedness of one `lxc.idmap` value, as required for
`State::evaluate_findings` to avoid its `unreachable!`/`unwrap` panics:
after trimming and splitting on spaces there are at least four fields, the
second to fourth parse as `u32`, and the first is `u` or `g`. -/
def wellFormedIdmap (v : Str) : Bool :=
  match splitOnChar ' ' (trimStr v) with
  | kind :: hostId :: hostSubId :: size :: _ =>
    (parseU32 hostId).isSome && (parseU32 hostSubId).isSome
      && (parseU32 size).isSome && (kind = str "u" || kind = str "g")
  | _ => false

/-- The kind field (first space-separated field after trimming) of an
`lxc.idmap` value. -/
def kindField (v : Str) : Str := (splitOnChar ' ' (trimStr v)).headD []

/-- The kind token (`u` or `g`) selecting a `SubID`. -/
def kindToken : SubID → Str
  | .UID => str "u"
  | .GID => str "g"

/-- Position of the first occurrence of a name in a list of names. -/
def firstIdxOf (n : Str) : List Str → Option Nat
  | [] => none
  | m :: rest => if m = n then some 0 else (firstIdxOf n rest).map (· + 1)

/-- Modelled from the spec's words (§4.5 step 1), with the correction forced
by the code: walking the names in order, every occurrence of a name that
already occurred earlier yields one `Bad` finding highlighting the first
occurrence and the current position (both offset by `start`). -/
def dupSpecGo (message : Str) (start : Nat) :
    List Str → List Str → List Finding
  | _, [] => []
  | seen, n :: rest =>
    (match firstIdxOf n seen with
     | some r => [mkDupFinding message (start + r) (start + seen.length)]
     | none => [])
      ++ dupSpecGo message start (seen ++ [n]) rest

/-- Spec-side duplicate findings for a list of names whose first element
sits at absolute highlight position `start`. -/
def dupSpec (message : Str) (start : Nat) (names : List Str) : List Finding :=
  dupSpecGo message start [] names

/-- Modelled from the claim's words (C7): a subuid line is malformed when,
after trimming and splitting on `:`, the second or third field is missing or
does not parse as `u32`. -/
def subidLineMalformed (l : Str) : Bool :=
  let fields := splitOnChar ':' (trimStr l)
  decide (fields.length < 3) || !(parseU32 (fields.getD 1 [])).isSome
    || !(parseU32 (fields.getD 2 [])).isSome

/-! ## Concrete fixtures used by counterexamples and witnesses -/

/-- A resolver that resolves the name `0` to the numeric ID `0` and fails on
everything else. -/
def res0 : Resolver := fun _ n => if n = str "0" then some 0 else none

/-- A resolver that fails on every name. -/
def resFail : Resolver := fun _ _ => none

/-- A rootfs metadata lookup that always fails (no rootfs data available). -/
def noRfs : RootfsMeta := fun _ => none

/-- The host-mapping entry `0:10000:65000` of the spec's range-containment
scenario. -/
def c1Entry : IdMapEntry := ⟨str "0", 10000, 65000⟩

/-- State for the range-containment boundary case: the idmap line
`u 0 75000 0` declares `host_sub_id = 75000` (exactly one past the entry's
half-open range `[10000, 75000)`) with count `0`. -/
def c1State : EvalState :=
  ⟨⟨[c1Entry], [c1Entry]⟩,
    [(str "100.conf",
      Config.fromStr
        (str "lxc.idmap = u 0 75000 0\nlxc.idmap = g 0 10000 65000\nunprivileged: 1"))]⟩

/-- State for the `u32` overflow case: the host entry `0:4294967295:1` has
exact end `2^32`, which wraps to `0`; the idmap line `u 0 4294967295 1`
matches the entry exactly. -/
def c10State : EvalState :=
  ⟨⟨[⟨str "0", 4294967295, 1⟩], []⟩,
    [(str "100.conf",
      Config.fromStr
        (str "unprivileged: 1\nlxc.idmap: u 0 4294967295 1\nlxc.idmap: g 0 0 1"))]⟩

/-- The parsed entries of a subid file in file order: every line that is
non-blank after trimming contributes its parse. -/
def subidParsedLines (content : Str) : List IdMapEntry :=
  (rustLines content).filterMap fun l =>
    if trimStr l = [] then none else parseSubidLine (trimStr l)

/-- State with three `subuid` entries sharing the name `1000`. -/
def c3State : EvalState :=
  ⟨⟨[⟨str "1000", 1, 1⟩, ⟨str "1000", 2, 1⟩, ⟨str "1000", 3, 1⟩], []⟩, []⟩

/-- The config produced by parsing `[a]` and then appending the key-value
pair `k = v` to the top-level (sectionless) view. -/
def c4Config : Config :=
  (Config.fromStr (str "[a]")).appendKV none (str "k") (str "v")

/-- The memo table of the given kind inside a `Resolutions` state. -/
def memoFor (r : Resolutions) : SubID → List (Str × Nat)
  | .UID => r.memoU
  | .GID => r.memoG

/-- Per-pass resolver-call invariant: for every `(kind, name)` pair whose
resolution succeeds, a logged call implies the name is memoized in the
kind's memo table, and the pair occurs in the call log at most once. -/
def CallInv (res : Resolver) (r : Resolutions) : Prop :=
  ∀ (k : SubID) (n : Str), res k n ≠ none →
    ((k, n) ∈ r.calls → (lookupAssoc (memoFor r k) n).isSome = true)
      ∧ r.calls.count (k, n) ≤ 1

/-- State whose single subuid entry names `x` (unresolvable by `resFail`)
and whose unprivileged config has two `u`-kind idmap lines. -/
def c9State : EvalState :=
  ⟨⟨[⟨str "x", 0, 1⟩], []⟩,
    [(str "100.conf",
      Config.fromStr
        (str "unprivileged: 1\nlxc.idmap: u 0 0 1\nlxc.idmap: u 1 0 1"))]⟩

/-- Like `c9State` but with the resolvable name `0` granted `0:70000`. -/
def c9SuccState : EvalState :=
  ⟨⟨[⟨str "0", 0, 70000⟩], []⟩,
    [(str "100.conf",
      Config.fromStr
        (str "unprivileged: 1\nlxc.idmap: u 0 0 1\nlxc.idmap: u 1 0 1"))]⟩

/-! ## Supporting lemmas -/

theorem fromStrStep_fst (acc : List ConfEntry × Index × Option Str) (l : Str) :
    (fromStrStep acc l).1 = acc.1 ++ [parseLine l] := by
  obtain ⟨es, idx, cs⟩ := acc
  cases h : parseLine l <;> simp [fromStrStep, h]

theorem foldl_fromStrStep_fst (ls : List Str) :
    ∀ (es : List ConfEntry) (idx : Index) (cs : Option Str),
      (ls.foldl fromStrStep (es, idx, cs)).1 = es ++ ls.map parseLine := by
  induction ls with
  | nil => intro es idx cs; simp
  | cons l ls ih =>
    intro es idx cs
    rw [List.foldl_cons]
    calc (List.foldl fromStrStep (fromStrStep (es, idx, cs) l) ls).1
        = (fromStrStep (es, idx, cs) l).1 ++ ls.map parseLine := ih _ _ _
      _ = (es ++ [parseLine l]) ++ ls.map parseLine := by
          rw [fromStrStep_fst]
      _ = es ++ List.map parseLine (l :: ls) := by simp

theorem fromStr_entries (content : Str) :
    (Config.fromStr content).entries = (rustLines content).map parseLine := by
  show ((rustLines content).foldl fromStrStep ([], [], none)).1 = _
  rw [foldl_fromStrStep_fst]
  simp

/-! ## Claims -/

/-- C1 (counterexample): with host mapping `0:10000:65000` (uid and gid),
the resolver mapping the name `0` to ID `0`, and an unprivileged container
whose idmap line `u 0 75000 0` declares `host_sub_id = 75000` — outside the
half-open interval `[10000, 75000)` required by the spec, so the spec
demands the `Bad` uid-range finding for this pair — the evaluation pass
emits no finding at all. -/
theorem c1_range_check_counterexample :
    res0 .UID (str "0") = some 0
      ∧ specRangeViolation c1Entry 75000 0 = true
      ∧ evaluate ⟨false⟩ res0 noRfs c1State = some [] := by decide

/-- C1 (amended): for every matching (idmap line, host-mapping entry) pair,
provided neither the entry's end nor the idmap's declared end overflows
`u32`, the evaluation pass emits the `Bad` range finding for the pair if and
only if the idmap's declared `host_sub_id` is less than the entry's start,
or greater than the entry's end `host_sub_id + host_sub_id_count` (a closed
upper bound, not the spec's half-open one), or the idmap's declared end
exceeds the entry's end. -/
theorem c1_range_check_amended (kind : SubID) (filename : Str) (pos : Nat)
    (m : IdMapEntry) (h s : Nat)
    (hm : m.host_sub_id + m.host_sub_id_count < 4294967296)
    (hs : h + s < 4294967296) :
    rangeFinding kind filename pos m h s = some (mkRangeFinding kind filename pos)
      ↔ (h < m.host_sub_id ∨ h > m.host_sub_id + m.host_sub_id_count
          ∨ h + s > m.host_sub_id + m.host_sub_id_count) := by
  have e1 : u32add m.host_sub_id m.host_sub_id_count
      = m.host_sub_id + m.host_sub_id_count := Nat.mod_eq_of_lt hm
  have e2 : u32add h s = h + s := Nat.mod_eq_of_lt hs
  rw [rangeFinding, rangeViolation, e1, e2]
  by_cases hv : h < m.host_sub_id ∨ h > m.host_sub_id + m.host_sub_id_count
      ∨ h + s > m.host_sub_id + m.host_sub_id_count
  · rcases hv with hv | hv | hv <;> simp [hv]
  · push_neg at hv
    obtain ⟨h1, h2, h3⟩ := hv
    simp [Nat.not_lt_of_le h1, Nat.not_lt_of_le h2, Nat.not_lt_of_le h3]

/-- Witness for C1 (amended): the pair with entry `0:10000:65000` and idmap
values `host_sub_id = 10000`, `count = 65001` (end one past the entry's end)
is emitted. -/
theorem c1_range_check_amended_witness :
    rangeFinding .UID (str "100.conf") 0 c1Entry 10000 65001
      = some (mkRangeFinding .UID (str "100.conf") 0) :=
  (c1_range_check_amended .UID (str "100.conf") 0 c1Entry 10000 65001
      (by norm_num [c1Entry]) (by norm_num)).mpr
    (by norm_num [c1Entry])

/-- C2 (counterexample): the config text `a=b` consists of one line with an
`=` delimiter, yet `Display` of the parsed config renders it as `a: b`,
which differs from the original text. -/
theorem c2_roundtrip_counterexample :
    (Config.fromStr (str "a=b")).display = str "a: b"
      ∧ str "a: b" ≠ str "a=b" := by decide

/-- C2 (amended): `Display` of the parsed config reproduces the original
text byte-for-byte provided every line is already in its canonical rendered
form (key-value lines written exactly `key: value` with a colon delimiter,
comment/section lines carrying no surrounding whitespace, blank lines
empty), and the text equals the newline-join of its lines (no trailing
newline, no carriage returns). -/
theorem c2_roundtrip_amended (text : Str)
    (h1 : ∀ l ∈ rustLines text, renderEntry (parseLine l) = l)
    (h2 : List.intercalate ['\n'] (rustLines text) = text) :
    (Config.fromStr text).display = text := by
  rw [Config.display, fromStr_entries, List.map_map]
  have hmap : List.map (renderEntry ∘ parseLine) (rustLines text)
      = List.map id (rustLines text) :=
    List.map_congr_left fun l hl => h1 l hl
  rw [hmap, List.map_id]
  exact h2

/-- Witness for C2 (amended): the two-line text `a: b\nkey: value` is
reproduced byte-for-byte. -/
theorem c2_roundtrip_amended_witness :
    (Config.fromStr (str "a: b\nkey: value")).display = str "a: b\nkey: value" :=
  c2_roundtrip_amended (str "a: b\nkey: value") (by decide) (by decide)

theorem lookupAssoc_append {α : Type} (a b : List (Str × α)) (n : Str) :
    lookupAssoc (a ++ b) n
      = (lookupAssoc a n).orElse fun _ => lookupAssoc b n := by
  induction a with
  | nil => simp [lookupAssoc]
  | cons p rest ih =>
    obtain ⟨k, v⟩ := p
    by_cases h : k = n <;> simp [lookupAssoc, h, ih]

theorem firstIdxOf_append (n : Str) (a b : List Str) :
    firstIdxOf n (a ++ b)
      = (firstIdxOf n a).orElse fun _ => (firstIdxOf n b).map (· + a.length) := by
  induction a with
  | nil => simp [firstIdxOf]
  | cons m rest ih =>
    by_cases h : m = n
    · simp [firstIdxOf, h]
    · have lhs : firstIdxOf n ((m :: rest) ++ b)
          = (firstIdxOf n (rest ++ b)).map (· + 1) := by
        simp [firstIdxOf, h]
      have rhs1 : firstIdxOf n (m :: rest) = (firstIdxOf n rest).map (· + 1) := by
        simp [firstIdxOf, h]
      rw [lhs, rhs1, ih]
      cases h1 : firstIdxOf n rest with
      | some r => simp [Option.orElse]
      | none =>
        cases h2 : firstIdxOf n b with
        | none => simp [Option.orElse]
        | some r =>
          simp [Option.orElse]
          omega

/-- The duplicate scan agrees with the spec-side first-occurrence recursion:
generalized over the prefix already processed. -/
theorem dupScan_eq_dupSpecGo (message : Str) (start : Nat)
    (l : List IdMapEntry) :
    ∀ (seenNames : List Str) (seen : List (Str × Nat)),
      (∀ n, lookupAssoc seen n = (firstIdxOf n seenNames).map (start + ·)) →
      dupScan true message l (start + seenNames.length) seen
        = dupSpecGo message start seenNames (l.map IdMapEntry.host_user_id) := by
  induction l with
  | nil => intro seenNames seen _; simp [dupScan, dupSpecGo]
  | cons m rest ih =>
    intro seenNames seen hinv
    have hname := hinv m.host_user_id
    cases hfi : firstIdxOf m.host_user_id seenNames with
    | some r =>
      have hl : lookupAssoc seen m.host_user_id = some (start + r) := by
        rw [hname, hfi]; rfl
      have hinv' : ∀ n, lookupAssoc seen n
          = (firstIdxOf n (seenNames ++ [m.host_user_id])).map (start + ·) := by
        intro n
        rw [firstIdxOf_append]
        cases hfn : firstIdxOf n seenNames with
        | some r' => simp [Option.orElse, hinv n, hfn]
        | none =>
          by_cases hn : m.host_user_id = n
          · subst hn
            rw [hfn] at hfi
            exact absurd hfi (by simp)
          · simp [Option.orElse, hinv n, hfn, firstIdxOf, hn]
      have hrec := ih (seenNames ++ [m.host_user_id]) seen hinv'
      rw [show start + (seenNames ++ [m.host_user_id]).length
          = start + seenNames.length + 1 from by
        simp only [List.length_append, List.length_cons, List.length_nil]
        omega] at hrec
      simp only [dupScan, hl, List.map_cons, dupSpecGo, hfi, if_true]
      rw [hrec]
    | none =>
      have hl : lookupAssoc seen m.host_user_id = none := by
        rw [hname, hfi]; rfl
      have hinv' : ∀ n,
          lookupAssoc (seen ++ [(m.host_user_id, start + seenNames.length)]) n
            = (firstIdxOf n (seenNames ++ [m.host_user_id])).map (start + ·) := by
        intro n
        rw [lookupAssoc_append, firstIdxOf_append]
        cases hfn : firstIdxOf n seenNames with
        | some r' => simp [Option.orElse, hinv n, hfn]
        | none =>
          by_cases hn : m.host_user_id = n
          · simp [Option.orElse, hinv n, hfn, lookupAssoc, firstIdxOf, hn]
          · simp [Option.orElse, hinv n, hfn, lookupAssoc, firstIdxOf, hn]
      have hrec := ih (seenNames ++ [m.host_user_id])
        (seen ++ [(m.host_user_id, start + seenNames.length)]) hinv'
      rw [show start + (seenNames ++ [m.host_user_id]).length
          = start + seenNames.length + 1 from by
        simp only [List.length_append, List.length_cons, List.length_nil]
        omega] at hrec
      simp only [dupScan, hl, List.map_cons, dupSpecGo, hfi]
      rw [hrec]
      simp

/-- C3 (counterexample): with strict (PVE) checking and a `subuid` list of
three entries sharing the name `1000`, evaluation emits two `Bad`
duplicate-user findings (highlighting positions `[0, 1]` and `[0, 2]`), not
one finding referencing all prior and current positions `[0, 1, 2]`. -/
theorem c3_duplicates_counterexample :
    evaluate ⟨true⟩ res0 noRfs c3State
        = some [mkDupFinding dupUserMsg 0 1, mkDupFinding dupUserMsg 0 2]
      ∧ (∀ f ∈ [mkDupFinding dupUserMsg 0 1, mkDupFinding dupUserMsg 0 2],
          f.host_mapping_highlights ≠ [0, 1, 2]) := by decide

/-- C3 (amended): with strict (PVE) duplicate checking, for each occurrence
of a `host_user_id` after its first, evaluation emits one `Bad` finding with
the user message referencing the first and the current position of that
name (positions offset by the start index: `0` for `subuid`, the `subuid`
length for `subgid`); in particular a `subuid` list of exactly two entries
sharing one name, with empty `subgid` and no configs, yields exactly one
such finding highlighting both entries, and the same two entries moved to
`subgid` yield the group-message equivalent. -/
theorem c3_duplicates_amended :
    (∀ (message : Str) (start : Nat) (l : List IdMapEntry),
      dupScan true message l start []
        = dupSpec message start (l.map IdMapEntry.host_user_id))
      ∧ evaluate ⟨true⟩ res0 noRfs
          ⟨⟨[⟨str "1000", 10000, 65000⟩, ⟨str "1000", 10000, 65000⟩], []⟩, []⟩
        = some [mkDupFinding dupUserMsg 0 1]
      ∧ evaluate ⟨true⟩ res0 noRfs
          ⟨⟨[], [⟨str "1000", 10000, 65000⟩, ⟨str "1000", 10000, 65000⟩]⟩, []⟩
        = some [mkDupFinding dupGroupMsg 0 1] := by
  refine ⟨fun message start l => ?_, by decide, by decide⟩
  have h := dupScan_eq_dupSpecGo message start l [] []
    (fun n => by simp [lookupAssoc, firstIdxOf])
  simpa [dupSpec] using h

/-- C4 (divergence): after parsing `[a]` (a config with one empty section
and no top-level keys) and calling `SectionViewMut::append` on the
top-level view, the index records the value `v` under `(none, k)`, but the
new `KeyValue` entry is inserted at the end of the entry list — inside the
region of section `a` — so the region of the entry list belonging to the
top-level section contains no such entry and index and entries disagree. -/
theorem c4_index_divergence :
    indexGet c4Config.index (none, str "k") = some [str "v"]
      ∧ sectionValues none (str "k") none c4Config.entries = []
      ∧ c4Config.entries = [.Section (str "a"), .KeyValue (str "k") (str "v")] := by
  decide

/-- C10: the range check's sums are `u32` additions.  (1) Whenever neither
the host entry's end nor the idmap's declared end overflows `u32`, the
wrapped comparison agrees with its exact-integer reading.  (2) For the host
entry `0:4294967295:1` (end `2^32`, wrapping to `0`) and the idmap values
`host_sub_id = 4294967295`, `count = 1`, the wrapped check reports a
violation while the exact reading reports none, and a full evaluation pass
on a state containing exactly this pair emits the `Bad` uid-range
finding. -/
theorem c10_overflow :
    (∀ (m : IdMapEntry) (h s : Nat),
      m.host_sub_id + m.host_sub_id_count < 4294967296 → h + s < 4294967296 →
      rangeViolation m h s = exactRangeViolation m h s)
      ∧ rangeViolation ⟨str "0", 4294967295, 1⟩ 4294967295 1 = true
      ∧ exactRangeViolation ⟨str "0", 4294967295, 1⟩ 4294967295 1 = false
      ∧ evaluate ⟨false⟩ res0 noRfs c10State
        = some [mkRangeFinding .UID (str "100.conf") 0] := by
  refine ⟨fun m h s hm hs => ?_, by decide, by decide, by decide⟩
  have e1 : u32add m.host_sub_id m.host_sub_id_count
      = m.host_sub_id + m.host_sub_id_count := Nat.mod_eq_of_lt hm
  have e2 : u32add h s = h + s := Nat.mod_eq_of_lt hs
  rw [rangeViolation, exactRangeViolation, e1, e2]

/-- Witness for C10: agreement of the wrapped and exact comparisons at the
non-overflowing pair from the spec's range scenario. -/
theorem c10_overflow_witness :
    rangeViolation c1Entry 10000 65000 = exactRangeViolation c1Entry 10000 65000 :=
  c10_overflow.1 c1Entry 10000 65000 (by norm_num [c1Entry]) (by norm_num)

theorem foldl_subidStep_none (ls : List Str) :
    ls.foldl subidStep none = none := by
  induction ls with
  | nil => rfl
  | cons l ls ih => simpa [subidStep] using ih

theorem parseSubidLine_none_iff (t : Str) :
    parseSubidLine t = none
      ↔ ((splitOnChar ':' t).length < 3
          ∨ parseU32 ((splitOnChar ':' t).getD 1 []) = none
          ∨ parseU32 ((splitOnChar ':' t).getD 2 []) = none) := by
  rw [parseSubidLine]
  cases hsp : splitOnChar ':' t with
  | nil => simp
  | cons a rest =>
    cases rest with
    | nil => simp
    | cons b rest2 =>
      cases rest2 with
      | nil => simp
      | cons c rest3 =>
        cases hb : parseU32 b <;> cases hc : parseU32 c <;>
          simp [hb, hc]

theorem foldl_subidStep_eq_none_iff (ls : List Str) :
    ∀ es : List IdMapEntry,
      ls.foldl subidStep (some es) = none
        ↔ ∃ l ∈ ls, trimStr l ≠ [] ∧ parseSubidLine (trimStr l) = none := by
  induction ls with
  | nil => intro es; simp
  | cons l ls ih =>
    intro es
    rw [List.foldl_cons]
    by_cases hb : trimStr l = []
    · rw [show subidStep (some es) l = some es from by simp [subidStep, hb]]
      rw [ih]
      simp [hb]
    · cases hp : parseSubidLine (trimStr l) with
      | some e =>
        rw [show subidStep (some es) l = some (es ++ [e]) from by
          simp [subidStep, hb, hp]]
        rw [ih]
        simp [hb, hp]
      | none =>
        rw [show subidStep (some es) l = none from by simp [subidStep, hb, hp]]
        rw [foldl_subidStep_none]
        simp only [true_iff]
        exact ⟨l, by simp, hb, hp⟩

theorem foldl_subidStep_eq_some (ls : List Str) :
    ∀ (es out : List IdMapEntry),
      ls.foldl subidStep (some es) = some out →
      out = es ++ ls.filterMap fun l =>
        if trimStr l = [] then none else parseSubidLine (trimStr l) := by
  induction ls with
  | nil => intro es out h; simpa using h.symm
  | cons l ls ih =>
    intro es out h
    rw [List.foldl_cons] at h
    by_cases hb : trimStr l = []
    · rw [show subidStep (some es) l = some es from by simp [subidStep, hb]] at h
      rw [ih es out h]
      simp [hb]
    · cases hp : parseSubidLine (trimStr l) with
      | some e =>
        rw [show subidStep (some es) l = some (es ++ [e]) from by
          simp [subidStep, hb, hp]] at h
        rw [ih (es ++ [e]) out h]
        simp [hb, hp]
      | none =>
        rw [show subidStep (some es) l = none from by simp [subidStep, hb, hp]] at h
        rw [foldl_subidStep_none] at h
        exact absurd h (by simp)

/-- C7: loading `/etc/subuid`/`/etc/subgid` content fails (leaving the host
mapping untouched, since the parse precedes the assignment) exactly when
some line that is non-blank after trimming has a missing or non-`u32`
second or third `:`-separated field; on success the targeted list is
replaced wholesale by the parsed entries in file order (blank lines
skipped) and the other list is unchanged. -/
theorem c7_subid_load (hm : HostMapping) (content : Str) (kind : SubID) :
    (loadSubid hm content kind = none
        ↔ ∃ l ∈ rustLines content, trimStr l ≠ [] ∧ subidLineMalformed l = true)
      ∧ (∀ hm', loadSubid hm content kind = some hm' →
          (kind = .UID → hm'.subuid = subidParsedLines content
            ∧ hm'.subgid = hm.subgid)
          ∧ (kind = .GID → hm'.subgid = subidParsedLines content
            ∧ hm'.subuid = hm.subuid)) := by
  have hmal : ∀ l : Str, trimStr l ≠ [] →
      (parseSubidLine (trimStr l) = none ↔ subidLineMalformed l = true) := by
    intro l _
    rw [parseSubidLine_none_iff, subidLineMalformed]
    cases h1 : parseU32 ((splitOnChar ':' (trimStr l)).getD 1 []) <;>
      cases h2 : parseU32 ((splitOnChar ':' (trimStr l)).getD 2 []) <;>
        by_cases h3 : (splitOnChar ':' (trimStr l)).length < 3 <;>
          simp [h1, h2, h3]
  constructor
  · rw [loadSubid]
    cases hp : parseSubidMap content with
    | some entries =>
      simp only [Option.map_some']
      constructor
      · intro h; exact absurd h (by simp)
      · rintro ⟨l, hl, hnb, hbad⟩
        rw [parseSubidMap] at hp
        have := (foldl_subidStep_eq_none_iff (rustLines content) []).mpr
          ⟨l, hl, hnb, (hmal l hnb).mpr hbad⟩
        rw [hp] at this
        exact absurd this (by simp)
    | none =>
      simp only [Option.map_none', true_iff]
      rw [parseSubidMap] at hp
      obtain ⟨l, hl, hnb, hpn⟩ := (foldl_subidStep_eq_none_iff (rustLines content) []).mp hp
      exact ⟨l, hl, hnb, (hmal l hnb).mp hpn⟩
  · intro hm' h
    rw [loadSubid] at h
    cases hp : parseSubidMap content with
    | none => rw [hp] at h; exact absurd h (by simp)
    | some entries =>
      rw [hp] at h
      have hout : entries = subidParsedLines content := by
        rw [parseSubidMap] at hp
        simpa [subidParsedLines] using foldl_subidStep_eq_some (rustLines content) [] entries hp
      simp only [Option.map_some', Option.some_inj] at h
      cases kind with
      | UID =>
        refine ⟨fun _ => ?_, fun hk => by exact absurd hk (by simp)⟩
        rw [← h, ← hout]
        exact ⟨rfl, rfl⟩
      | GID =>
        refine ⟨fun hk => by exact absurd hk (by simp), fun _ => ?_⟩
        rw [← h, ← hout]
        exact ⟨rfl, rfl⟩

/-- Witness for C7: loading `a:1:2\n\nb:3:4` into the subuid list succeeds,
replaces `subuid` by the two parsed entries and leaves `subgid` (holding one
stale entry) unchanged; and the failure characterization holds for this
content (no malformed line exists). -/
theorem c7_subid_load_witness :
    (loadSubid ⟨[], [⟨str "g", 7, 8⟩]⟩ (str "a:1:2\n\nb:3:4") .UID = none
        ↔ ∃ l ∈ rustLines (str "a:1:2\n\nb:3:4"),
            trimStr l ≠ [] ∧ subidLineMalformed l = true)
      ∧ ([⟨str "a", 1, 2⟩, ⟨str "b", 3, 4⟩] : List IdMapEntry)
          = subidParsedLines (str "a:1:2\n\nb:3:4")
      ∧ ([⟨str "g", 7, 8⟩] : List IdMapEntry) = [⟨str "g", 7, 8⟩] := by
  refine ⟨(c7_subid_load ⟨[], [⟨str "g", 7, 8⟩]⟩ (str "a:1:2\n\nb:3:4") .UID).1, ?_, rfl⟩
  have h := ((c7_subid_load ⟨[], [⟨str "g", 7, 8⟩]⟩ (str "a:1:2\n\nb:3:4") .UID).2
    ⟨[⟨str "a", 1, 2⟩, ⟨str "b", 3, 4⟩], [⟨str "g", 7, 8⟩]⟩ (by decide)).1 rfl
  exact h.1.symm ▸ rfl

theorem wellFormedIdmap_fields (v : Str) :
    wellFormedIdmap v
      = match idmapFields v with
        | some (ks, _, _, _) => (decide (ks = str "u") || decide (ks = str "g"))
        | none => false := by
  rw [wellFormedIdmap, idmapFields]
  cases hsp : splitOnChar ' ' (trimStr v) with
  | nil => simp
  | cons k0 r0 =>
    cases r0 with
    | nil => simp
    | cons a r1 =>
      cases r1 with
      | nil => simp
      | cons b r2 =>
        cases r2 with
        | nil => simp
        | cons c r3 =>
          cases hpa : parseU32 a <;> cases hpb : parseU32 b <;>
            cases hpc : parseU32 c <;> simp [hpa, hpb, hpc]

theorem idmapFields_kind (v : Str) (ks : Str) (a b c : Nat)
    (h : idmapFields v = some (ks, a, b, c)) : ks = kindField v := by
  rw [idmapFields] at h
  rw [kindField]
  cases hsp : splitOnChar ' ' (trimStr v) with
  | nil => rw [hsp] at h; exact absurd h (by simp)
  | cons k0 r0 =>
    rw [hsp] at h
    cases r0 with
    | nil => exact absurd h (by simp)
    | cons a0 r1 =>
      cases r1 with
      | nil => exact absurd h (by simp)
      | cons b0 r2 =>
        cases r2 with
        | nil => exact absurd h (by simp)
        | cons c0 r3 =>
          dsimp only at h
          cases hpa : parseU32 a0 with
          | none => rw [hpa] at h; exact absurd h (by simp)
          | some pa =>
            rw [hpa] at h
            cases hpb : parseU32 b0 with
            | none => rw [hpb] at h; exact absurd h (by simp)
            | some pb =>
              rw [hpb] at h
              cases hpc : parseU32 c0 with
              | none => rw [hpc] at h; exact absurd h (by simp)
              | some pc =>
                rw [hpc] at h
                dsimp only at h
                injection h with h2
                injection h2 with hks h3
                simp [← hks]

theorem processIdmapLine_isSome (res : Resolver) (hm : HostMapping)
    (filename : Str) (rm : Option (Nat × Nat)) (v : Str) (hU hG : Bool)
    (r : Resolutions) :
    (processIdmapLine res hm filename rm v hU hG r).isSome = wellFormedIdmap v := by
  rw [processIdmapLine, wellFormedIdmap_fields]
  cases hif : idmapFields v with
  | none => simp
  | some q =>
    obtain ⟨ks, a, b, c⟩ := q
    by_cases hk : ks = str "u" ∨ ks = str "g"
    · simp [hk]
    · have := not_or.mp hk
      simp [hk, this.1, this.2]

theorem processIdmapLines_isSome (res : Resolver) (hm : HostMapping)
    (filename : Str) (rm : Option (Nat × Nat)) (vs : List Str) :
    ∀ (hU hG : Bool) (r : Resolutions),
      (processIdmapLines res hm filename rm vs hU hG r).isSome
        = vs.all wellFormedIdmap := by
  induction vs with
  | nil => intro hU hG r; simp [processIdmapLines]
  | cons v vs ih =>
    intro hU hG r
    rw [processIdmapLines]
    have h1 := processIdmapLine_isSome res hm filename rm v hU hG r
    cases hv : processIdmapLine res hm filename rm v hU hG r with
    | none =>
      rw [hv] at h1
      simp only [Option.isSome_none] at h1
      simp [← h1]
    | some p =>
      rw [hv] at h1
      simp only [Option.isSome_some] at h1
      obtain ⟨⟨hU', hG'⟩, r', fs⟩ := p
      have h2 := ih hU' hG' r'
      cases hrec : processIdmapLines res hm filename rm vs hU' hG' r' with
      | none =>
        rw [hrec] at h2
        simp only [Option.isSome_none] at h2
        simp [hrec, ← h1, ← h2]
      | some q =>
        rw [hrec] at h2
        simp only [Option.isSome_some] at h2
        simp [hrec, ← h1, ← h2]

theorem processConfig_isSome (res : Resolver) (rfs : RootfsMeta)
    (hm : HostMapping) (filename : Str) (config : Config) (r : Resolutions) :
    (processConfig res rfs hm filename config r).isSome = true
      ↔ (config.sectionGet none (str "unprivileged") = some (str "1") →
          ∀ v ∈ config.sectionGetAll none (str "lxc.idmap"),
            wellFormedIdmap v = true) := by
  rw [processConfig]
  by_cases hunp : config.sectionGet none (str "unprivileged") = some (str "1")
  · rw [if_neg (by simp [hunp])]
    have h := processIdmapLines_isSome res hm filename
      ((config.sectionGet none (str "rootfs")).bind rfs)
      (config.sectionGetAll none (str "lxc.idmap")) false false r
    cases hl : processIdmapLines res hm filename
        ((config.sectionGet none (str "rootfs")).bind rfs)
        (config.sectionGetAll none (str "lxc.idmap")) false false r with
    | none =>
      rw [hl] at h
      simp only [Option.isSome_none] at h
      simp only [hl, Option.isSome_none, Bool.false_eq_true, false_iff]
      intro hall
      have h2 : (config.sectionGetAll none (str "lxc.idmap")).all wellFormedIdmap
          = true := List.all_eq_true.mpr (hall hunp)
      rw [← h] at h2
      exact absurd h2 (by simp)
    | some p =>
      rw [hl] at h
      simp only [Option.isSome_some] at h
      obtain ⟨⟨hU, hG⟩, r', fs⟩ := p
      simp only [hl, Option.isSome_some, true_iff]
      intro _
      rw [← List.all_eq_true]
      exact h.symm
  · rw [if_pos (by simpa using hunp)]
    simp [hunp]

theorem processConfigs_isSome (res : Resolver) (rfs : RootfsMeta)
    (hm : HostMapping) (configs : List (Str × Config)) :
    ∀ r : Resolutions,
      (processConfigs res rfs hm configs r).isSome = true
        ↔ ∀ p ∈ configs,
            p.2.sectionGet none (str "unprivileged") = some (str "1") →
            ∀ v ∈ p.2.sectionGetAll none (str "lxc.idmap"),
              wellFormedIdmap v = true := by
  induction configs with
  | nil => intro r; simp [processConfigs]
  | cons fc rest ih =>
    intro r
    obtain ⟨filename, config⟩ := fc
    rw [processConfigs]
    cases hc : processConfig res rfs hm filename config r with
    | none =>
      have h := processConfig_isSome res rfs hm filename config r
      rw [hc] at h
      simp only [Option.isSome_none, Bool.false_eq_true, false_iff] at h
      simp only [Option.isSome_none, Bool.false_eq_true, false_iff]
      intro hall
      exact h (hall (filename, config) (by simp))
    | some p =>
      obtain ⟨r', fs⟩ := p
      have h := processConfig_isSome res rfs hm filename config r
      rw [hc] at h
      simp only [Option.isSome_some, true_iff] at h
      cases hrest : processConfigs res rfs hm rest r' with
      | none =>
        have h2 := ih r'
        rw [hrest] at h2
        simp only [Option.isSome_none, Bool.false_eq_true, false_iff] at h2
        simp only [hrest, Option.isSome_none, Bool.false_eq_true, false_iff]
        intro hall
        exact h2 fun q hq => hall q (by simp [hq])
      | some q =>
        have h2 := ih r'
        rw [hrest] at h2
        simp only [Option.isSome_some, true_iff] at h2
        obtain ⟨r'', fs'⟩ := q
        simp only [hrest, Option.isSome_some, true_iff]
        intro p' hp'
        rcases List.mem_cons.mp hp' with hp' | hp'
        · subst hp'; exact h
        · exact h2 p' hp'

/-- C8: the evaluation pass completes (instead of hitting an
`unreachable!`/`unwrap` panic) if and only if every `lxc.idmap` value of
every container config whose `unprivileged` key equals `"1"` is well-formed:
at least four space-separated fields after trimming, the second to fourth
parseable as `u32`, and the kind token `u` or `g`.  Any malformed line in an
unprivileged config aborts the pass without producing a finding set. -/
theorem c8_panic_on_malformed (meta : Metadata) (res : Resolver)
    (rfs : RootfsMeta) (st : EvalState) :
    (evaluate meta res rfs st).isSome = true
      ↔ ∀ p ∈ st.lxc_configs,
          p.2.sectionGet none (str "unprivileged") = some (str "1") →
          ∀ v ∈ p.2.sectionGetAll none (str "lxc.idmap"),
            wellFormedIdmap v = true := by
  rw [evaluate, evaluateRaw]
  rw [← processConfigs_isSome res rfs st.host_mapping st.lxc_configs
    Resolutions.empty]
  cases h : processConfigs res rfs st.host_mapping st.lxc_configs
      Resolutions.empty with
  | none => simp
  | some p => obtain ⟨r, fs⟩ := p; simp

theorem sortFindings_filter_bad (l : List Finding) :
    (sortFindings l).filter isBad = l.filter isBad := by
  rw [sortFindings, List.filter_append, List.filter_filter, List.filter_filter]
  simp

theorem sortFindings_filter_good (l : List Finding) :
    (sortFindings l).filter (fun f => !(isBad f))
      = l.filter (fun f => !(isBad f)) := by
  rw [sortFindings, List.filter_append, List.filter_filter, List.filter_filter]
  simp

theorem sortFindings_bad_before_good (l : List Finding) (i j : Nat)
    (fi fj : Finding) (hij : i < j) (hi : (sortFindings l)[i]? = some fi)
    (hj : (sortFindings l)[j]? = some fj) (hbad : isBad fj = true) :
    isBad fi = true := by
  rw [sortFindings] at hi hj
  by_cases hjlt : j < (l.filter isBad).length
  · have hilt : i < (l.filter isBad).length := Nat.lt_trans hij hjlt
    rw [List.getElem?_append_left hilt] at hi
    have : fi ∈ l.filter isBad := List.getElem?_mem hi
    exact List.of_mem_filter this
  · have hge : (l.filter isBad).length ≤ j := Nat.le_of_not_lt hjlt
    rw [List.getElem?_append_right hge] at hj
    have : fj ∈ l.filter (fun f => !(isBad f)) := List.getElem?_mem hj
    have hgood := List.of_mem_filter this
    rw [hbad] at hgood
    exact absurd hgood (by simp)

/-- C6: whenever the pass completes, the published findings list is the
stable partition of the emission-order list: every `Bad` finding precedes
every `Good` finding, and within each kind the emission order is
preserved. -/
theorem c6_bad_before_good (meta : Metadata) (res : Resolver)
    (rfs : RootfsMeta) (st : EvalState) (raw : List Finding)
    (calls : List (SubID × Str))
    (h : evaluateRaw meta res rfs st = some (raw, calls)) :
    evaluate meta res rfs st = some (sortFindings raw)
      ∧ (sortFindings raw).filter isBad = raw.filter isBad
      ∧ (sortFindings raw).filter (fun f => !(isBad f))
          = raw.filter (fun f => !(isBad f))
      ∧ ∀ (i j : Nat) (fi fj : Finding), i < j →
          (sortFindings raw)[i]? = some fi →
          (sortFindings raw)[j]? = some fj → isBad fj = true →
          isBad fi = true := by
  refine ⟨?_, sortFindings_filter_bad raw, sortFindings_filter_good raw,
    fun i j fi fj => sortFindings_bad_before_good raw i j fi fj⟩
  rw [evaluate, h]
  rfl

/-- Witness for C6: the empty PVE state emits the single `Good`
no-duplicates finding; its sorted form satisfies all four conclusions. -/
theorem c6_bad_before_good_witness :
    evaluate ⟨true⟩ res0 noRfs ⟨⟨[], []⟩, []⟩
        = some (sortFindings [goodNoDupFinding])
      ∧ (sortFindings [goodNoDupFinding]).filter isBad
          = [goodNoDupFinding].filter isBad
      ∧ (sortFindings [goodNoDupFinding]).filter (fun f => !(isBad f))
          = [goodNoDupFinding].filter (fun f => !(isBad f))
      ∧ ∀ (i j : Nat) (fi fj : Finding), i < j →
          (sortFindings [goodNoDupFinding])[i]? = some fi →
          (sortFindings [goodNoDupFinding])[j]? = some fj → isBad fj = true →
          isBad fi = true :=
  c6_bad_before_good ⟨true⟩ res0 noRfs ⟨⟨[], []⟩, []⟩ [goodNoDupFinding] []
    (by decide)

theorem lookupAssoc_isSome_append {α : Type} (a b : List (Str × α)) (n : Str)
    (h : (lookupAssoc a n).isSome = true) :
    (lookupAssoc (a ++ b) n).isSome = true := by
  rw [lookupAssoc_append]
  cases ha : lookupAssoc a n with
  | none => rw [ha] at h; exact absurd h (by simp)
  | some v => simp [Option.orElse, ha]

theorem processMappings_calls (res : Resolver) (kind : SubID) (filename : Str)
    (offset pid psid psz : Nat) (mappings : List IdMapEntry) :
    ∀ (k : Nat) (memo : List (Str × Nat)) (calls : List (SubID × Str)),
      (∀ n : Str, res kind n ≠ none →
          ((kind, n) ∈ calls → (lookupAssoc memo n).isSome = true)
            ∧ calls.count (kind, n) ≤ 1) →
      (∀ n : Str, res kind n ≠ none →
          ((kind, n) ∈ (processMappings res kind filename offset pid psid psz
              mappings k memo calls).2.1 →
            (lookupAssoc (processMappings res kind filename offset pid psid psz
              mappings k memo calls).1 n).isSome = true)
            ∧ (processMappings res kind filename offset pid psid psz
                mappings k memo calls).2.1.count (kind, n) ≤ 1)
        ∧ ∀ c : SubID × Str, c.1 ≠ kind →
            (c ∈ (processMappings res kind filename offset pid psid psz
                mappings k memo calls).2.1 ↔ c ∈ calls)
              ∧ (processMappings res kind filename offset pid psid psz
                  mappings k memo calls).2.1.count c = calls.count c := by
  induction mappings with
  | nil =>
    intro k memo calls hyp
    exact ⟨fun n hn => (hyp n hn), fun c _ => ⟨Iff.rfl, rfl⟩⟩
  | cons m rest ih =>
    intro k memo calls hyp
    rw [processMappings]
    cases hl : lookupAssoc memo m.host_user_id with
    | some id =>
      dsimp only
      exact ih (k + 1) memo calls hyp
    | none =>
      dsimp only
      cases hres : res kind m.host_user_id with
      | none =>
        dsimp only
        have hyp' : ∀ n : Str, res kind n ≠ none →
            ((kind, n) ∈ calls ++ [(kind, m.host_user_id)] →
              (lookupAssoc memo n).isSome = true)
              ∧ (calls ++ [(kind, m.host_user_id)]).count (kind, n) ≤ 1 := by
          intro n hn
          have hne : n ≠ m.host_user_id := fun he => hn (he ▸ hres)
          constructor
          · intro hmem
            rcases List.mem_append.mp hmem with hmem | hmem
            · exact (hyp n hn).1 hmem
            · simp only [List.mem_singleton, Prod.mk.injEq] at hmem
              exact absurd hmem.2 hne
          · rw [List.count_append]
            have : List.count (kind, n) [(kind, m.host_user_id)] = 0 := by
              rw [List.count_eq_zero]
              simp only [List.mem_singleton, Prod.mk.injEq, not_and]
              intro _
              exact fun he => hne he
            rw [this, Nat.add_zero]
            exact (hyp n hn).2
        have hrec := ih (k + 1) memo (calls ++ [(kind, m.host_user_id)]) hyp'
        refine ⟨hrec.1, fun c hc => ?_⟩
        have h2 := hrec.2 c hc
        have hcm : c ∉ [(kind, m.host_user_id)] := by
          simp only [List.mem_singleton]
          intro he
          exact hc (he ▸ rfl)
        constructor
        · rw [h2.1]
          constructor
          · intro hmem
            rcases List.mem_append.mp hmem with hmem | hmem
            · exact hmem
            · exact absurd hmem hcm
          · intro hmem; exact List.mem_append.mpr (Or.inl hmem)
        · rw [h2.2, List.count_append, List.count_eq_zero.mpr hcm, Nat.add_zero]
      | some id =>
        dsimp only
        have hnotmem : (kind, m.host_user_id) ∉ calls := by
          intro hmem
          have := (hyp m.host_user_id (by rw [hres]; simp)).1 hmem
          rw [hl] at this
          exact absurd this (by simp)
        have hyp' : ∀ n : Str, res kind n ≠ none →
            ((kind, n) ∈ calls ++ [(kind, m.host_user_id)] →
              (lookupAssoc (memo ++ [(m.host_user_id, id)]) n).isSome = true)
              ∧ (calls ++ [(kind, m.host_user_id)]).count (kind, n) ≤ 1 := by
          intro n hn
          by_cases hne : n = m.host_user_id
          · subst hne
            constructor
            · intro _
              rw [lookupAssoc_append, hl]
              simp [Option.orElse, lookupAssoc]
            · rw [List.count_append, List.count_eq_zero.mpr hnotmem,
                Nat.zero_add]
              simp [List.count_singleton]
          · constructor
            · intro hmem
              rcases List.mem_append.mp hmem with hmem | hmem
              · exact lookupAssoc_isSome_append memo _ n ((hyp n hn).1 hmem)
              · simp only [List.mem_singleton, Prod.mk.injEq] at hmem
                exact absurd hmem.2 hne
            · rw [List.count_append]
              have : List.count (kind, n) [(kind, m.host_user_id)] = 0 := by
                rw [List.count_eq_zero]
                simp only [List.mem_singleton, Prod.mk.injEq, not_and]
                intro _
                exact fun he => hne he
              rw [this, Nat.add_zero]
              exact (hyp n hn).2
        have hrec := ih (k + 1) (memo ++ [(m.host_user_id, id)])
          (calls ++ [(kind, m.host_user_id)]) hyp'
        refine ⟨hrec.1, fun c hc => ?_⟩
        have h2 := hrec.2 c hc
        have hcm : c ∉ [(kind, m.host_user_id)] := by
          simp only [List.mem_singleton]
          intro he
          exact hc (he ▸ rfl)
        constructor
        · rw [h2.1]
          constructor
          · intro hmem
            rcases List.mem_append.mp hmem with hmem | hmem
            · exact hmem
            · exact absurd hmem hcm
          · intro hmem; exact List.mem_append.mpr (Or.inl hmem)
        · rw [h2.2, List.count_append, List.count_eq_zero.mpr hcm, Nat.add_zero]

theorem lineCore_callInv (res : Resolver) (hm : HostMapping) (filename : Str)
    (kind : SubID) (pid psid psz : Nat) (r : Resolutions)
    (hinv : CallInv res r) :
    CallInv res (lineCore res hm filename kind pid psid psz r).1 := by
  cases kind with
  | UID =>
    have hA := processMappings_calls res .UID filename 0 pid psid psz
      hm.subuid 0 r.memoU r.calls (fun n hn => hinv .UID n hn)
    intro k n hn
    cases k with
    | UID => exact hA.1 n hn
    | GID =>
      have h2 := hA.2 (.GID, n) (by simp)
      refine ⟨fun hmem => (hinv .GID n hn).1 (h2.1.mp hmem), ?_⟩
      show (processMappings res .UID filename 0 pid psid psz hm.subuid 0
        r.memoU r.calls).2.1.count (SubID.GID, n) ≤ 1
      rw [h2.2]
      exact (hinv .GID n hn).2
  | GID =>
    have hA := processMappings_calls res .GID filename hm.subuid.length
      pid psid psz hm.subgid 0 r.memoG r.calls (fun n hn => hinv .GID n hn)
    intro k n hn
    cases k with
    | GID => exact hA.1 n hn
    | UID =>
      have h2 := hA.2 (.UID, n) (by simp)
      refine ⟨fun hmem => (hinv .UID n hn).1 (h2.1.mp hmem), ?_⟩
      show (processMappings res .GID filename hm.subuid.length pid psid psz
        hm.subgid 0 r.memoG r.calls).2.1.count (SubID.UID, n) ≤ 1
      rw [h2.2]
      exact (hinv .UID n hn).2

theorem processIdmapLine_callInv (res : Resolver) (hm : HostMapping)
    (filename : Str) (rm : Option (Nat × Nat)) (v : Str) (hU hG : Bool)
    (r : Resolutions) (flags : Bool × Bool) (r' : Resolutions)
    (fs : List Finding)
    (h : processIdmapLine res hm filename rm v hU hG r = some (flags, r', fs))
    (hinv : CallInv res r) : CallInv res r' := by
  rw [processIdmapLine] at h
  split at h
  · split at h
    · injection h with h2
      injection h2 with hf h3
      injection h3 with hr hfs
      rw [← hr]
      exact lineCore_callInv res hm filename _ _ _ _ r hinv
    · exact absurd h (by simp)
  · exact absurd h (by simp)

theorem processIdmapLines_callInv (res : Resolver) (hm : HostMapping)
    (filename : Str) (rm : Option (Nat × Nat)) (vs : List Str) :
    ∀ (hU hG : Bool) (r : Resolutions) (flags : Bool × Bool)
      (r' : Resolutions) (fs : List Finding),
      processIdmapLines res hm filename rm vs hU hG r = some (flags, r', fs) →
      CallInv res r → CallInv res r' := by
  induction vs with
  | nil =>
    intro hU hG r flags r' fs h hinv
    rw [processIdmapLines] at h
    injection h with h2
    injection h2 with hf h3
    injection h3 with hr hfs
    rw [← hr]
    exact hinv
  | cons v vs ih =>
    intro hU hG r flags r' fs h hinv
    rw [processIdmapLines] at h
    cases hv : processIdmapLine res hm filename rm v hU hG r with
    | none => rw [hv] at h; exact absurd h (by simp)
    | some p =>
      rw [hv] at h
      obtain ⟨⟨hU1, hG1⟩, r1, fs1⟩ := p
      dsimp only at h
      have hinv1 := processIdmapLine_callInv res hm filename rm v hU hG r
        (hU1, hG1) r1 fs1 hv hinv
      cases hrec : processIdmapLines res hm filename rm vs hU1 hG1 r1 with
      | none => rw [hrec] at h; exact absurd h (by simp)
      | some q =>
        rw [hrec] at h
        obtain ⟨flags2, r2, fs2⟩ := q
        dsimp only at h
        injection h with h2
        injection h2 with hf h3
        injection h3 with hr hfs
        rw [← hr]
        exact ih hU1 hG1 r1 flags2 r2 fs2 hrec hinv1

theorem processConfig_callInv (res : Resolver) (rfs : RootfsMeta)
    (hm : HostMapping) (filename : Str) (config : Config) (r : Resolutions)
    (r' : Resolutions) (fs : List Finding)
    (h : processConfig res rfs hm filename config r = some (r', fs))
    (hinv : CallInv res r) : CallInv res r' := by
  rw [processConfig] at h
  by_cases hunp : config.sectionGet none (str "unprivileged") = some (str "1")
  · rw [if_neg (by simp [hunp])] at h
    dsimp only at h
    cases hl : processIdmapLines res hm filename
        ((config.sectionGet none (str "rootfs")).bind rfs)
        (config.sectionGetAll none (str "lxc.idmap")) false false r with
    | none => rw [hl] at h; exact absurd h (by simp)
    | some p =>
      rw [hl] at h
      obtain ⟨⟨hU, hG⟩, r1, fs1⟩ := p
      dsimp only at h
      injection h with h2
      injection h2 with hr hfs
      rw [← hr]
      exact processIdmapLines_callInv res hm filename _ _ false false r
        (hU, hG) r1 fs1 hl hinv
  · rw [if_pos (by simpa using hunp)] at h
    injection h with h2
    injection h2 with hr hfs
    rw [← hr]
    exact hinv

theorem processConfigs_callInv (res : Resolver) (rfs : RootfsMeta)
    (hm : HostMapping) (configs : List (Str × Config)) :
    ∀ (r r' : Resolutions) (fs : List Finding),
      processConfigs res rfs hm configs r = some (r', fs) →
      CallInv res r → CallInv res r' := by
  induction configs with
  | nil =>
    intro r r' fs h hinv
    rw [processConfigs] at h
    injection h with h2
    injection h2 with hr hfs
    rw [← hr]
    exact hinv
  | cons fc rest ih =>
    intro r r' fs h hinv
    obtain ⟨filename, config⟩ := fc
    rw [processConfigs] at h
    cases hc : processConfig res rfs hm filename config r with
    | none => rw [hc] at h; exact absurd h (by simp)
    | some p =>
      rw [hc] at h
      obtain ⟨r1, fs1⟩ := p
      dsimp only at h
      have hinv1 := processConfig_callInv res rfs hm filename config r r1 fs1
        hc hinv
      cases hrest : processConfigs res rfs hm rest r1 with
      | none => rw [hrest] at h; exact absurd h (by simp)
      | some q =>
        rw [hrest] at h
        obtain ⟨r2, fs2⟩ := q
        dsimp only at h
        injection h with h2
        injection h2 with hr hfs
        rw [← hr]
        exact ih r1 r2 fs2 hrest hinv1

/-- C9 (counterexample): with a resolver that fails on every name, a subuid
list naming `x` and an unprivileged config with two `u`-kind idmap lines,
the evaluation pass invokes the resolver twice for the single distinct pair
`(user, x)` — a failed resolution is not memoized, so the same name is
re-resolved when the next idmap line revisits the mapping entry. -/
theorem c9_memoization_counterexample :
    (evaluateRaw ⟨false⟩ resFail noRfs c9State).map Prod.snd
        = some [(.UID, str "x"), (.UID, str "x")]
      ∧ List.count ((.UID : SubID), str "x")
          [((.UID : SubID), str "x"), ((.UID : SubID), str "x")] = 2 := by
  decide

/-- C9 (amended): within a single findings-recomputation pass, the external
identity resolver is invoked at most once per distinct
`(kind, host_user_id name)` pair whose resolution succeeds (successful
resolutions are memoized per pass); a resolution failure skips that mapping
entry for the pass without being fatal, but the failed pair is re-invoked
when a later mapping-entry visit mentions the same name. -/
theorem c9_memoization_amended (meta : Metadata) (res : Resolver)
    (rfs : RootfsMeta) (st : EvalState) (raw : List Finding)
    (calls : List (SubID × Str)) (k : SubID) (n : Str)
    (h : evaluateRaw meta res rfs st = some (raw, calls))
    (hres : res k n ≠ none) :
    calls.count (k, n) ≤ 1 := by
  rw [evaluateRaw] at h
  cases hp : processConfigs res rfs st.host_mapping st.lxc_configs
      Resolutions.empty with
  | none => rw [hp] at h; exact absurd h (by simp)
  | some p =>
    rw [hp] at h
    obtain ⟨r, fs⟩ := p
    injection h with h2
    injection h2 with hraw hcalls
    have hinv0 : CallInv res Resolutions.empty := by
      intro k' n' _
      exact ⟨fun hmem => absurd hmem (by simp [Resolutions.empty]), by
        simp [Resolutions.empty]⟩
    have hinv := processConfigs_callInv res rfs st.host_mapping st.lxc_configs
      Resolutions.empty r fs hp hinv0
    rw [← hcalls]
    exact (hinv k n hres).2

/-- Witness for C9 (amended): with the resolver that resolves `0` and a
state whose config has two `u`-kind idmap lines over the single subuid
entry `0:0:70000`, the pass logs exactly one call for `(user, 0)`, and the
amended bound holds. -/
theorem c9_memoization_amended_witness :
    List.count ((.UID : SubID), str "0") [((.UID : SubID), str "0")] ≤ 1 :=
  c9_memoization_amended ⟨false⟩ res0 noRfs c9SuccState
    [missingFinding .GID (str "100.conf")] [(.UID, str "0")] .UID (str "0")
    (by decide) (by decide)

theorem mem_rangeFinding_toList (kind : SubID) (fn : Str) (pos : Nat)
    (m : IdMapEntry) (h s : Nat) (f : Finding)
    (hf : f ∈ (rangeFinding kind fn pos m h s).toList) :
    f = mkRangeFinding kind fn pos := by
  rw [rangeFinding] at hf
  split at hf
  · simpa using hf
  · simp at hf

theorem processMappings_messages (res : Resolver) (kind : SubID)
    (filename : Str) (offset pid psid psz : Nat) (mappings : List IdMapEntry) :
    ∀ (k : Nat) (memo : List (Str × Nat)) (calls : List (SubID × Str)),
      ∀ f ∈ (processMappings res kind filename offset pid psid psz
          mappings k memo calls).2.2,
        f.message = rangeMsg kind := by
  induction mappings with
  | nil => intro k memo calls f hf; simp [processMappings] at hf
  | cons m rest ih =>
    intro k memo calls f hf
    rw [processMappings] at hf
    cases hl : lookupAssoc memo m.host_user_id with
    | some id =>
      rw [hl] at hf
      dsimp only at hf
      rcases List.mem_append.mp hf with hf | hf
      · by_cases hid : id ≠ pid
        · rw [if_pos hid] at hf; simp at hf
        · rw [if_neg hid] at hf
          rw [mem_rangeFinding_toList kind filename (k + offset) m psid psz f hf]
          rfl
      · exact ih (k + 1) memo calls f hf
    | none =>
      rw [hl] at hf
      dsimp only at hf
      cases hres : res kind m.host_user_id with
      | none =>
        rw [hres] at hf
        exact ih (k + 1) memo (calls ++ [(kind, m.host_user_id)]) f hf
      | some id =>
        rw [hres] at hf
        dsimp only at hf
        rcases List.mem_append.mp hf with hf | hf
        · by_cases hid : id ≠ pid
          · rw [if_pos hid] at hf; simp at hf
          · rw [if_neg hid] at hf
            rw [mem_rangeFinding_toList kind filename (k + offset) m psid psz f hf]
            rfl
        · exact ih (k + 1) (memo ++ [(m.host_user_id, id)])
            (calls ++ [(kind, m.host_user_id)]) f hf

theorem lineCore_messages (res : Resolver) (hm : HostMapping) (filename : Str)
    (kind : SubID) (pid psid psz : Nat) (r : Resolutions) (f : Finding)
    (hf : f ∈ (lineCore res hm filename kind pid psid psz r).2) :
    f.message = rangeMsg kind := by
  cases kind with
  | UID =>
    exact processMappings_messages res .UID filename 0 pid psid psz hm.subuid
      0 r.memoU r.calls f hf
  | GID =>
    exact processMappings_messages res .GID filename hm.subuid.length
      pid psid psz hm.subgid 0 r.memoG r.calls f hf

theorem processIdmapLine_messages (res : Resolver) (hm : HostMapping)
    (filename : Str) (rm : Option (Nat × Nat)) (v : Str) (hU hG : Bool)
    (r : Resolutions) (flags : Bool × Bool) (r' : Resolutions)
    (fs : List Finding)
    (h : processIdmapLine res hm filename rm v hU hG r = some (flags, r', fs)) :
    ∀ f ∈ fs, f.message = rootfsMsg .UID ∨ f.message = rootfsMsg .GID
      ∨ f.message = rangeMsg .UID ∨ f.message = rangeMsg .GID := by
  rw [processIdmapLine] at h
  cases hif : idmapFields v with
  | none => rw [hif] at h; exact absurd h (by simp)
  | some q =>
    obtain ⟨ks, a, b, c⟩ := q
    rw [hif] at h
    dsimp only at h
    split at h
    · injection h with h2
      injection h2 with hflags h3
      injection h3 with hr hfs
      intro f hf
      rw [← hfs] at hf
      rcases List.mem_append.mp hf with hf | hf
      · cases rm with
        | none => simp at hf
        | some p =>
          obtain ⟨uid, gid⟩ := p
          dsimp only at hf
          rcases List.mem_append.mp hf with hf | hf
          · split at hf
            · simp only [List.mem_singleton] at hf
              subst hf
              exact Or.inl rfl
            · simp at hf
          · split at hf
            · simp only [List.mem_singleton] at hf
              subst hf
              exact Or.inr (Or.inl rfl)
            · simp at hf
      · have := lineCore_messages res hm filename _ a b c r f hf
        rw [this]
        cases hite : (if ks = str "u" then SubID.UID else SubID.GID) with
        | UID => exact Or.inr (Or.inr (Or.inl rfl))
        | GID => exact Or.inr (Or.inr (Or.inr rfl))
    · exact absurd h (by simp)

theorem processIdmapLines_messages (res : Resolver) (hm : HostMapping)
    (filename : Str) (rm : Option (Nat × Nat)) (vs : List Str) :
    ∀ (hU hG : Bool) (r : Resolutions) (flags : Bool × Bool)
      (r' : Resolutions) (fs : List Finding),
      processIdmapLines res hm filename rm vs hU hG r = some (flags, r', fs) →
      ∀ f ∈ fs, f.message = rootfsMsg .UID ∨ f.message = rootfsMsg .GID
        ∨ f.message = rangeMsg .UID ∨ f.message = rangeMsg .GID := by
  induction vs with
  | nil =>
    intro hU hG r flags r' fs h f hf
    rw [processIdmapLines] at h
    injection h with h2
    injection h2 with _ h3
    injection h3 with _ hfs
    rw [← hfs] at hf
    simp at hf
  | cons v vs ih =>
    intro hU hG r flags r' fs h f hf
    rw [processIdmapLines] at h
    cases hv : processIdmapLine res hm filename rm v hU hG r with
    | none => rw [hv] at h; exact absurd h (by simp)
    | some p =>
      rw [hv] at h
      obtain ⟨⟨hU1, hG1⟩, r1, fs1⟩ := p
      dsimp only at h
      cases hrec : processIdmapLines res hm filename rm vs hU1 hG1 r1 with
      | none => rw [hrec] at h; exact absurd h (by simp)
      | some q =>
        rw [hrec] at h
        obtain ⟨flags2, r2, fs2⟩ := q
        dsimp only at h
        injection h with h2
        injection h2 with _ h3
        injection h3 with _ hfs
        rw [← hfs] at hf
        rcases List.mem_append.mp hf with hf | hf
        · exact processIdmapLine_messages res hm filename rm v hU hG r
            (hU1, hG1) r1 fs1 hv f hf
        · exact ih hU1 hG1 r1 flags2 r2 fs2 hrec f hf

theorem processIdmapLine_flags (res : Resolver) (hm : HostMapping)
    (filename : Str) (rm : Option (Nat × Nat)) (v : Str) (hU hG : Bool)
    (r : Resolutions) (flags : Bool × Bool) (r' : Resolutions)
    (fs : List Finding)
    (h : processIdmapLine res hm filename rm v hU hG r = some (flags, r', fs)) :
    flags = (hU || decide (kindField v = str "u"),
             hG || decide (kindField v = str "g")) := by
  rw [processIdmapLine] at h
  cases hif : idmapFields v with
  | none => rw [hif] at h; exact absurd h (by simp)
  | some q =>
    obtain ⟨ks, a, b, c⟩ := q
    rw [hif] at h
    dsimp only at h
    split at h
    · injection h with h2
      injection h2 with hflags h3
      rw [← hflags, idmapFields_kind v ks a b c hif]
    · exact absurd h (by simp)

theorem processIdmapLines_flags (res : Resolver) (hm : HostMapping)
    (filename : Str) (rm : Option (Nat × Nat)) (vs : List Str) :
    ∀ (hU hG : Bool) (r : Resolutions) (flags : Bool × Bool)
      (r' : Resolutions) (fs : List Finding),
      processIdmapLines res hm filename rm vs hU hG r = some (flags, r', fs) →
      flags = (hU || vs.any (fun v => decide (kindField v = str "u")),
               hG || vs.any (fun v => decide (kindField v = str "g"))) := by
  induction vs with
  | nil =>
    intro hU hG r flags r' fs h
    rw [processIdmapLines] at h
    injection h with h2
    injection h2 with hflags _
    rw [← hflags]
    simp
  | cons v vs ih =>
    intro hU hG r flags r' fs h
    rw [processIdmapLines] at h
    cases hv : processIdmapLine res hm filename rm v hU hG r with
    | none => rw [hv] at h; exact absurd h (by simp)
    | some p =>
      rw [hv] at h
      obtain ⟨⟨hU1, hG1⟩, r1, fs1⟩ := p
      dsimp only at h
      cases hrec : processIdmapLines res hm filename rm vs hU1 hG1 r1 with
      | none => rw [hrec] at h; exact absurd h (by simp)
      | some q =>
        rw [hrec] at h
        obtain ⟨flags2, r2, fs2⟩ := q
        dsimp only at h
        injection h with h2
        injection h2 with hflags _
        have h1 := processIdmapLine_flags res hm filename rm v hU hG r
          (hU1, hG1) r1 fs1 hv
        have h2' := ih hU1 hG1 r1 flags2 r2 fs2 hrec
        rw [← hflags, h2']
        injection h1 with hu1 hg1
        rw [hu1, hg1]
        simp [List.any_cons, Bool.or_assoc]

theorem dupScan_messages (isPve : Bool) (message : Str) :
    ∀ (l : List IdMapEntry) (i : Nat) (seen : List (Str × Nat)),
      ∀ f ∈ dupScan isPve message l i seen, f.message = message := by
  intro l
  induction l with
  | nil => intro i seen f hf; simp [dupScan] at hf
  | cons m rest ih =>
    intro i seen f hf
    rw [dupScan] at hf
    cases hl : lookupAssoc seen m.host_user_id with
    | some j =>
      rw [hl] at hf
      dsimp only at hf
      rcases List.mem_append.mp hf with hf | hf
      · split at hf
        · simp only [List.mem_singleton] at hf
          subst hf; rfl
        · simp at hf
      · exact ih (i + 1) seen f hf
    | none =>
      rw [hl] at hf
      exact ih (i + 1) (seen ++ [(m.host_user_id, i)]) f hf

theorem dupPhase_messages (meta : Metadata) (hm : HostMapping) (f : Finding)
    (hf : f ∈ dupPhase meta hm) :
    f.message = dupUserMsg ∨ f.message = dupGroupMsg
      ∨ f = goodNoDupFinding := by
  rw [dupPhase] at hf
  split at hf
  · rcases List.mem_append.mp hf with hf | hf
    · rcases List.mem_append.mp hf with hf | hf
      · exact Or.inl (dupScan_messages meta.is_pve dupUserMsg hm.subuid 0 [] f hf)
      · exact Or.inr (Or.inl
          (dupScan_messages meta.is_pve dupGroupMsg hm.subgid hm.subuid.length
            [] f hf))
    · simp only [List.mem_singleton] at hf
      exact Or.inr (Or.inr hf)
  · rcases List.mem_append.mp hf with hf | hf
    · exact Or.inl (dupScan_messages meta.is_pve dupUserMsg hm.subuid 0 [] f hf)
    · exact Or.inr (Or.inl
        (dupScan_messages meta.is_pve dupGroupMsg hm.subgid hm.subuid.length
          [] f hf))

theorem mem_sortFindings (f : Finding) (l : List Finding) :
    f ∈ sortFindings l ↔ f ∈ l := by
  rw [sortFindings]
  by_cases hb : isBad f = true <;>
    simp [List.mem_append, List.mem_filter, hb]

/-- Messages of the missing-idmap findings differ from every other message
the evaluator emits. -/
theorem missingMsg_ne (k k' : SubID) :
    missingMsg k ≠ rootfsMsg k' ∧ missingMsg k ≠ rangeMsg k'
      ∧ missingMsg k ≠ dupUserMsg ∧ missingMsg k ≠ dupGroupMsg
      ∧ missingFinding k ≠ fun _ => goodNoDupFinding := by
  refine ⟨?_, ?_, ?_, ?_, ?_⟩ <;> cases k <;> cases k' <;> first
    | decide
    | (intro hcon
       have := congrFun hcon (str "z")
       simp [missingFinding, goodNoDupFinding] at this)

theorem processConfig_missing (res : Resolver) (rfs : RootfsMeta)
    (hm : HostMapping) (filename : Str) (config : Config) (r : Resolutions)
    (r' : Resolutions) (seg : List Finding)
    (h : processConfig res rfs hm filename config r = some (r', seg))
    (k : SubID) (fn : Str) :
    missingFinding k fn ∈ seg
      ↔ (fn = filename
          ∧ config.sectionGet none (str "unprivileged") = some (str "1")
          ∧ (config.sectionGetAll none (str "lxc.idmap")).any
              (fun v => decide (kindField v = kindToken k)) = false) := by
  rw [processConfig] at h
  by_cases hunp : config.sectionGet none (str "unprivileged") = some (str "1")
  · rw [if_neg (by simp [hunp])] at h
    dsimp only at h
    cases hl : processIdmapLines res hm filename
        ((config.sectionGet none (str "rootfs")).bind rfs)
        (config.sectionGetAll none (str "lxc.idmap")) false false r with
    | none => rw [hl] at h; exact absurd h (by simp)
    | some p =>
      rw [hl] at h
      obtain ⟨⟨hU, hG⟩, r1, fs1⟩ := p
      dsimp only at h
      injection h with h2
      injection h2 with hr hseg
      have hflags := processIdmapLines_flags res hm filename _ _ false false r
        (hU, hG) r1 fs1 hl
      injection hflags with hu hg
      rw [Bool.false_or] at hu hg
      constructor
      · intro hmem
        rw [← hseg] at hmem
        rcases List.mem_append.mp hmem with hmem | hmem
        · rcases List.mem_append.mp hmem with hmem | hmem
          · have hmsg := processIdmapLines_messages res hm filename _ _
              false false r (hU, hG) r1 fs1 hl _ hmem
            simp only [missingFinding] at hmsg
            rcases hmsg with hmsg | hmsg | hmsg | hmsg
            · exact absurd hmsg (missingMsg_ne k .UID).1
            · exact absurd hmsg (missingMsg_ne k .GID).1
            · exact absurd hmsg (missingMsg_ne k .UID).2.1
            · exact absurd hmsg (missingMsg_ne k .GID).2.1
          · by_cases hUt : hU = true
            · rw [if_pos hUt] at hmem; simp at hmem
            · rw [if_neg hUt] at hmem
              simp only [List.mem_singleton] at hmem
              cases k with
              | UID =>
                have h4 := congrArg Finding.lxc_config_mapping_highlights hmem
                simp only [missingFinding, List.cons.injEq, Prod.mk.injEq,
                  and_true] at h4
                refine ⟨h4, hunp, ?_⟩
                simp only [kindToken]
                rw [← hu]
                cases hU with
                | false => rfl
                | true => exact absurd rfl hUt
              | GID =>
                have hmsg := congrArg Finding.message hmem
                simp only [missingFinding] at hmsg
                exact absurd hmsg (by decide)
        · by_cases hGt : hG = true
          · rw [if_pos hGt] at hmem; simp at hmem
          · rw [if_neg hGt] at hmem
            simp only [List.mem_singleton] at hmem
            cases k with
            | GID =>
              have h4 := congrArg Finding.lxc_config_mapping_highlights hmem
              simp only [missingFinding, List.cons.injEq, Prod.mk.injEq,
                and_true] at h4
              refine ⟨h4, hunp, ?_⟩
              simp only [kindToken]
              rw [← hg]
              cases hG with
              | false => rfl
              | true => exact absurd rfl hGt
            | UID =>
              have hmsg := congrArg Finding.message hmem
              simp only [missingFinding] at hmsg
              exact absurd hmsg (by decide)
      · rintro ⟨hfn, _, habs⟩
        rw [← hseg]
        cases k with
        | UID =>
          have hUf : hU = false := by rw [hu]; simpa [kindToken] using habs
          refine List.mem_append.mpr (Or.inl (List.mem_append.mpr (Or.inr ?_)))
          rw [if_neg (by rw [hUf]; simp)]
          simp [hfn]
        | GID =>
          have hGf : hG = false := by rw [hg]; simpa [kindToken] using habs
          refine List.mem_append.mpr (Or.inr ?_)
          rw [if_neg (by rw [hGf]; simp)]
          simp [hfn]
  · rw [if_pos (by simpa using hunp)] at h
    injection h with h2
    injection h2 with hr hseg
    rw [← hseg]
    simp [hunp]

theorem processConfigs_missing_filenames (res : Resolver) (rfs : RootfsMeta)
    (hm : HostMapping) :
    ∀ (configs : List (Str × Config)) (r r' : Resolutions)
      (fsAll : List Finding),
      processConfigs res rfs hm configs r = some (r', fsAll) →
      ∀ (k : SubID) (fn : Str), missingFinding k fn ∈ fsAll →
        fn ∈ configs.map Prod.fst := by
  intro configs
  induction configs with
  | nil =>
    intro r r' fsAll h k fn hmem
    rw [processConfigs] at h
    injection h with h2
    injection h2 with _ hfs
    rw [← hfs] at hmem
    simp at hmem
  | cons fc rest ih =>
    intro r r' fsAll h k fn hmem
    obtain ⟨filename, config⟩ := fc
    rw [processConfigs] at h
    cases hc : processConfig res rfs hm filename config r with
    | none => rw [hc] at h; exact absurd h (by simp)
    | some p =>
      rw [hc] at h
      obtain ⟨r1, seg⟩ := p
      dsimp only at h
      cases hrest : processConfigs res rfs hm rest r1 with
      | none => rw [hrest] at h; exact absurd h (by simp)
      | some q =>
        rw [hrest] at h
        obtain ⟨r2, fsRest⟩ := q
        dsimp only at h
        injection h with h2
        injection h2 with _ hfs
        rw [← hfs] at hmem
        rcases List.mem_append.mp hmem with hmem | hmem
        · have := (processConfig_missing res rfs hm filename config r r1 seg
            hc k fn).mp hmem
          rw [List.map_cons]
          exact List.mem_cons.mpr (Or.inl this.1)
        · have := ih r1 r2 fsRest hrest k fn hmem
          rw [List.map_cons]
          exact List.mem_cons.mpr (Or.inr this)

theorem processConfigs_missing_iff (res : Resolver) (rfs : RootfsMeta)
    (hm : HostMapping) :
    ∀ (configs : List (Str × Config)) (r r' : Resolutions)
      (fsAll : List Finding),
      processConfigs res rfs hm configs r = some (r', fsAll) →
      (configs.map Prod.fst).Nodup →
      ∀ (f : Str) (c : Config), (f, c) ∈ configs →
        ∀ k : SubID,
          (missingFinding k f ∈ fsAll
            ↔ (c.sectionGet none (str "unprivileged") = some (str "1")
                ∧ (c.sectionGetAll none (str "lxc.idmap")).any
                    (fun v => decide (kindField v = kindToken k)) = false)) := by
  intro configs
  induction configs with
  | nil => intro r r' fsAll h hnd f c hmem; simp at hmem
  | cons fc rest ih =>
    intro r r' fsAll h hnd f c hmem k
    obtain ⟨filename, config⟩ := fc
    rw [processConfigs] at h
    cases hc : processConfig res rfs hm filename config r with
    | none => rw [hc] at h; exact absurd h (by simp)
    | some p =>
      rw [hc] at h
      obtain ⟨r1, seg⟩ := p
      dsimp only at h
      cases hrest : processConfigs res rfs hm rest r1 with
      | none => rw [hrest] at h; exact absurd h (by simp)
      | some q =>
        rw [hrest] at h
        obtain ⟨r2, fsRest⟩ := q
        dsimp only at h
        injection h with h2
        injection h2 with _ hfs
        rw [← hfs]
        simp only [List.map_cons, List.nodup_cons] at hnd
        rcases List.mem_cons.mp hmem with hmem | hmem
        · injection hmem with hf hc'
          subst hf
          subst hc'
          constructor
          · intro hin
            rcases List.mem_append.mp hin with hin | hin
            · have := (processConfig_missing res rfs hm f c r r1
                seg hc k f).mp hin
              exact ⟨this.2.1, this.2.2⟩
            · have := processConfigs_missing_filenames res rfs hm rest r1 r2
                fsRest hrest k f hin
              exact absurd this hnd.1
          · intro hcond
            exact List.mem_append.mpr (Or.inl
              ((processConfig_missing res rfs hm f c r r1 seg hc
                k f).mpr ⟨rfl, hcond.1, hcond.2⟩))
        · have hfk : f ∈ rest.map Prod.fst := by
            exact List.mem_map.mpr ⟨(f, c), hmem, rfl⟩
          have hne : f ≠ filename := fun he => hnd.1 (he ▸ hfk)
          constructor
          · intro hin
            rcases List.mem_append.mp hin with hin | hin
            · have := (processConfig_missing res rfs hm filename config r r1
                seg hc k f).mp hin
              exact absurd this.1 hne
            · exact (ih r1 r2 fsRest hrest hnd.2 f c hmem k).mp hin
          · intro hcond
            exact List.mem_append.mpr (Or.inr
              ((ih r1 r2 fsRest hrest hnd.2 f c hmem k).mpr hcond))

/-- C5: for every container config in the state (config filenames being the
distinct keys of the config map), the missing-idmap finding of a kind is in
the published findings if and only if the config's top-level `unprivileged`
value is `"1"` and no top-level `lxc.idmap` value carries that kind's
token: no `u`-line yields the uid finding, no `g`-line the gid finding,
both absent yield both, and a non-unprivileged config contributes
neither. -/
theorem c5_missing_idmap (meta : Metadata) (res : Resolver) (rfs : RootfsMeta)
    (st : EvalState) (out : List Finding) (f : Str) (c : Config)
    (hev : evaluate meta res rfs st = some out)
    (hnd : (st.lxc_configs.map Prod.fst).Nodup)
    (hmem : (f, c) ∈ st.lxc_configs) :
    ∀ k : SubID,
      (missingFinding k f ∈ out
        ↔ (c.sectionGet none (str "unprivileged") = some (str "1")
            ∧ (c.sectionGetAll none (str "lxc.idmap")).any
                (fun v => decide (kindField v = kindToken k)) = false)) := by
  intro k
  rw [evaluate, evaluateRaw] at hev
  cases hp : processConfigs res rfs st.host_mapping st.lxc_configs
      Resolutions.empty with
  | none => rw [hp] at hev; exact absurd hev (by simp)
  | some p =>
    rw [hp] at hev
    obtain ⟨r, fsAll⟩ := p
    dsimp only at hev
    injection hev with hout
    rw [← hout, mem_sortFindings, List.mem_append]
    have hiff := processConfigs_missing_iff res rfs st.host_mapping
      st.lxc_configs Resolutions.empty r fsAll hp hnd f c hmem k
    constructor
    · intro hin
      rcases hin with hin | hin
      · exfalso
        rcases dupPhase_messages meta st.host_mapping _ hin with hmsg | hmsg | hg
        · have : (missingFinding k f).message = missingMsg k := rfl
          rw [this] at hmsg
          exact absurd hmsg (missingMsg_ne k .UID).2.2.1
        · have : (missingFinding k f).message = missingMsg k := rfl
          rw [this] at hmsg
          exact absurd hmsg (missingMsg_ne k .UID).2.2.2.1
        · have hmsg := congrArg Finding.kind hg
          simp only [missingFinding, goodNoDupFinding] at hmsg
          exact absurd hmsg (by decide)
      · exact hiff.mp hin
    · intro hcond
      exact Or.inr (hiff.mpr hcond)

/-- Witness for C5: in a state with one unprivileged config holding no
idmap lines, both missing findings are present; the characterization holds
for both kinds. -/
theorem c5_missing_idmap_witness :
    (missingFinding .UID (str "100.conf")
        ∈ [missingFinding .UID (str "100.conf"),
           missingFinding .GID (str "100.conf")]
      ↔ ((Config.fromStr (str "unprivileged: 1")).sectionGet none
            (str "unprivileged") = some (str "1")
          ∧ ((Config.fromStr (str "unprivileged: 1")).sectionGetAll none
                (str "lxc.idmap")).any
              (fun v => decide (kindField v = kindToken .UID)) = false))
    ∧ (missingFinding .GID (str "100.conf")
        ∈ [missingFinding .UID (str "100.conf"),
           missingFinding .GID (str "100.conf")]
      ↔ ((Config.fromStr (str "unprivileged: 1")).sectionGet none
            (str "unprivileged") = some (str "1")
          ∧ ((Config.fromStr (str "unprivileged: 1")).sectionGetAll none
                (str "lxc.idmap")).any
              (fun v => decide (kindField v = kindToken .GID)) = false)) :=
  ⟨c5_missing_idmap ⟨false⟩ res0 noRfs
    ⟨⟨[], []⟩, [(str "100.conf", Config.fromStr (str "unprivileged: 1"))]⟩
    [missingFinding .UID (str "100.conf"), missingFinding .GID (str "100.conf")]
    (str "100.conf") (Config.fromStr (str "unprivileged: 1"))
    (by decide) (by decide) (by decide) .UID,
   c5_missing_idmap ⟨false⟩ res0 noRfs
    ⟨⟨[], []⟩, [(str "100.conf", Config.fromStr (str "unprivileged: 1"))]⟩
    [missingFinding .UID (str "100.conf"), missingFinding .GID (str "100.conf")]
    (str "100.conf") (Config.fromStr (str "unprivileged: 1"))
    (by decide) (by decide) (by decide) .GID⟩

end Pupman
